import Mathlib

/-!
Verification development for the `pymotiva` client
(`pymotiva/__init__.py`): a UDP control/notification client for
Emotiva A/V receivers.  The Python source is shallowly embedded below:

* Python `str` and `bytes` values are modelled as `List Char`
  (`PyStr`); the `bytes.decode('utf-8') / str.encode('utf-8')`
  boundary is the identity in this model (all payloads of interest
  are ASCII).
* The `EmotivaNotifier` thread's shared state (`_devs`,
  `_socks_by_port`, `_socks_by_fileno`, the epoll registration set)
  is a record; `register` and one iteration of the `run` loop's
  dispatch body are explicit state functions.  Python dicts are
  insertion-ordered association lists with unique keys; OS file
  descriptors are allocated from a fresh counter.
* `xml.etree.ElementTree` trees are the mutual inductives `XE`/`XF`;
  `ET.tostring` / `ET.fromstring` are an executable serializer and
  parser for the XML fragment the protocol uses (elements,
  attributes, character data, character/entity references, the
  leading declaration; comments, CDATA and DOCTYPE are outside the
  model).  Parse failures model `xml.etree.ElementTree.ParseError`,
  the error kind the spec calls `MalformedResponse`.
* Exceptions are `Except` values; `AttributeError`, `TypeError`,
  `ValueError`, `KeyError` and `InvalidTransponderResponse` (the
  spec's `InvalidAdvertisement`) are explicit error constructors.
-/

/-- Python strings / byte strings, modelled as their character sequences. -/
abbrev PyStr := List Char

/-- Python `str.isspace` for the ASCII whitespace characters
(space, tab, newline, carriage return, vertical tab, form feed). -/
def pyIsSpace (c : Char) : Bool :=
  c = ' ' || c = '\t' || c = '\n' || c = '\r' || c = '\x0b' || c = '\x0c'

/-- Python `str.strip()`: remove leading and trailing whitespace. -/
def pyStrip (s : PyStr) : PyStr :=
  ((s.dropWhile pyIsSpace).reverse.dropWhile pyIsSpace).reverse

/-- Python `str.split('\n')`: split on every newline, keeping empty pieces. -/
def pySplitNl : PyStr → List PyStr
  | [] => [[]]
  | c :: rest =>
    if c = '\n' then [] :: pySplitNl rest
    else
      match pySplitNl rest with
      | [] => [[c]]
      | l :: ls => (c :: l) :: ls

/-- Python `''.join(pieces)`. -/
def pyJoin : List PyStr → PyStr
  | [] => []
  | p :: ps => p ++ pyJoin ps

/-- The normalization performed by `Emotiva._parse_response` before XML
parsing: split the payload on newlines, strip each line, join. -/
def stripJoin (data : PyStr) : PyStr :=
  pyJoin ((pySplitNl data).map pyStrip)

/-! ## Python dicts -/
/-- Lookup in an insertion-ordered association list modelling a Python
dict (keys are unique, so first match is the match). -/
def dictLookup {α β : Type} [DecidableEq α] : List (α × β) → α → Option β
  | [], _ => none
  | (k, v) :: rest, key => if k = key then some v else dictLookup rest key

/-- Python `key in dict`. -/
def dictContains {α β : Type} [DecidableEq α] (m : List (α × β)) (k : α) : Bool :=
  (dictLookup m k).isSome

/-! ## The notification multiplexer (`EmotivaNotifier`)

`EmotivaNotifier.__init__` creates three empty dicts and an epoll
object; `register(ip, port, callback)` lazily creates one non-blocking
UDP socket per port and installs the callback under a
first-registration-wins policy; the `run` loop resolves a ready file
descriptor to its socket, receives `(data, (ip, port))` and invokes
`self._devs[ip](data)`.  Callbacks are opaque values of a type
parameter `Cb`. -/
/-- A UDP socket created by `EmotivaNotifier.register`: its OS file
descriptor and the port it is bound to. -/
structure UdpSock where
  fd : Nat
  port : Nat
deriving DecidableEq, Repr

/-- The shared state of `EmotivaNotifier`: the three dicts (`_devs`,
`_socks_by_port`, `_socks_by_fileno`), the set of file descriptors
registered with epoll, and a fresh-descriptor counter standing in for
the OS file-descriptor allocator. -/
structure NotifierState (Cb : Type) where
  devs : List (PyStr × Cb)
  socksByPort : List (Nat × UdpSock)
  socksByFileno : List (Nat × UdpSock)
  epollSet : List Nat
  nextFd : Nat

/-- `EmotivaNotifier.__init__`: all maps empty. -/
def notifierInit (Cb : Type) : NotifierState Cb :=
  { devs := [], socksByPort := [], socksByFileno := [], epollSet := [], nextFd := 0 }

/-- `EmotivaNotifier.register(ip, port, callback)`: under the lock, if
`port` has no socket yet create one, bind it, and record it in both
socket maps and the epoll set; then, if `ip` has no callback yet,
install `callback` (otherwise leave the existing one untouched). -/
def notifierRegister {Cb : Type} (s : NotifierState Cb) (ip : PyStr) (port : Nat)
    (callback : Cb) : NotifierState Cb :=
  let s1 :=
    if dictContains s.socksByPort port then s
    else
      let sock : UdpSock := { fd := s.nextFd, port := port }
      { s with
        socksByPort := s.socksByPort ++ [(port, sock)]
        socksByFileno := s.socksByFileno ++ [(sock.fd, sock)]
        epollSet := s.epollSet ++ [sock.fd]
        nextFd := s.nextFd + 1 }
  if dictContains s1.devs ip then s1
  else { s1 with devs := s1.devs ++ [(ip, callback)] }

/-- A Python `KeyError` raised inside the `run` loop's dispatch body. -/
inductive DispatchErr where
  | keyErrorFileno (fd : Nat)
  | keyErrorAddr (ip : PyStr)
deriving DecidableEq, Repr

/-- One dispatch step of `EmotivaNotifier.run` for one ready file
descriptor: `sock = self._socks_by_fileno[fileno]`, then
`data, (ip, port) = sock.recvfrom(2048)` (the datagram's bytes and
source IP are inputs from the network), then `cb = self._devs[ip]`
and `cb(data)`.  The result `(cb, data)` records which callback is
invoked and with which bytes; a missing dict key raises `KeyError`. -/
def dispatchStep {Cb : Type} (s : NotifierState Cb) (fileno : Nat) (srcIp : PyStr)
    (data : PyStr) : Except DispatchErr (Cb × PyStr) :=
  match dictLookup s.socksByFileno fileno with
  | none => .error (.keyErrorFileno fileno)
  | some _ =>
    match dictLookup s.devs srcIp with
    | none => .error (.keyErrorAddr srcIp)
    | some cb => .ok (cb, data)

/-- The consistency invariant of the two socket maps maintained by
`EmotivaNotifier.register`: each map has unique keys, every socket
stored under a port is bound to that port and stored in the fileno map
under its own descriptor, and every descriptor in the fileno map is
that socket's descriptor and is below the allocator counter. -/
def notifierInv {Cb : Type} (s : NotifierState Cb) : Prop :=
  (s.socksByPort.map Prod.fst).Nodup ∧
  (s.socksByFileno.map Prod.fst).Nodup ∧
  (∀ e ∈ s.socksByPort, (e.2).port = e.1 ∧
    dictLookup s.socksByFileno (e.2).fd = some e.2) ∧
  (∀ e ∈ s.socksByFileno, (e.2).fd = e.1 ∧ e.1 < s.nextFd)

instance {Cb : Type} (s : NotifierState Cb) : Decidable (notifierInv s) := by
  unfold notifierInv; infer_instance

/-! ## XML element trees (`xml.etree.ElementTree.Element`)

An element has a tag, an attribute dict, optional text (character data
before the first child), children, and an optional tail (character
data following the element's end tag inside its parent).  The mutual
forest type `XF` stands in for `List XE` so that functions recursing
through children are structurally recursive. -/
mutual
inductive XE where
  | mk (tag : PyStr) (attrs : List (PyStr × PyStr)) (text : Option PyStr)
       (children : XF) (tail : Option PyStr)
  deriving DecidableEq, Repr
inductive XF where
  | nil
  | cons (e : XE) (es : XF)
  deriving DecidableEq, Repr
end

def XE.tag : XE → PyStr
  | .mk t _ _ _ _ => t

def XE.attrs : XE → List (PyStr × PyStr)
  | .mk _ a _ _ _ => a

def XE.text : XE → Option PyStr
  | .mk _ _ x _ _ => x

def XE.children : XE → XF
  | .mk _ _ _ c _ => c

def XE.tail : XE → Option PyStr
  | .mk _ _ _ _ tl => tl

def XE.setTail : XE → Option PyStr → XE
  | .mk t a x c _, tl => .mk t a x c tl

def XF.ofList : List XE → XF
  | [] => .nil
  | e :: es => .cons e (XF.ofList es)

def XF.toList : XF → List XE
  | .nil => []
  | .cons e es => e :: XF.toList es

/-- `Element.find(tag)`: the first direct child whose tag matches. -/
def XF.findTag : XF → PyStr → Option XE
  | .nil, _ => none
  | .cons e es, t => if e.tag = t then some e else XF.findTag es t

/-! ## Device session construction (`Emotiva.__init__` / `__parse_transponder`) -/
/-- The Python exceptions that `Emotiva.__init__` can raise while
parsing a transponder response: `AttributeError` (attribute access on
`None`), `TypeError` (`int(None)`), `ValueError` (`int()` on a
non-numeric string), and the library's own
`InvalidTransponderResponse` — the error kind the spec calls
`InvalidAdvertisement`. -/
inductive PyErr where
  | attributeError
  | typeError
  | valueError
  | invalidTransponderResponse
deriving DecidableEq, Repr

def isAsciiDigit (c : Char) : Bool := '0' ≤ c && c ≤ '9'

def digitsToNat (ds : PyStr) : Nat :=
  ds.foldl (fun n c => 10 * n + (c.toNat - '0'.toNat)) 0

/-- Python `int(s)` on a string: strip surrounding whitespace, accept an
optional sign followed by at least one decimal digit, otherwise raise
`ValueError`.  (Digit-group underscores and non-ASCII digits are not
modelled; no input in this development uses them.) -/
def pyInt (s : PyStr) : Except PyErr Int :=
  let t := pyStrip s
  match t with
  | '+' :: ds =>
    if ds ≠ [] ∧ ds.all isAsciiDigit then .ok (digitsToNat ds) else .error .valueError
  | '-' :: ds =>
    if ds ≠ [] ∧ ds.all isAsciiDigit then .ok (-(digitsToNat ds : Int)) else .error .valueError
  | ds =>
    if ds ≠ [] ∧ ds.all isAsciiDigit then .ok (digitsToNat ds) else .error .valueError

/-- Python `int(x)` where `x` is `elem.text`: `int(None)` raises `TypeError`. -/
def pyIntOpt : Option PyStr → Except PyErr Int
  | none => .error .typeError
  | some s => pyInt s

/-- The per-device state set up by `Emotiva.__init__`. -/
structure EmotivaDevice where
  ip : PyStr
  name : PyStr
  model : PyStr
  protoVer : Option PyStr
  ctrlPort : Option Int
  notifyPort : Option Int
  infoPort : Option Int
  setupPortTcp : Option Int
deriving DecidableEq, Repr

/-- The `elem = x.find(tag); if elem is not None: field = elem.text.strip()`
pattern used for `name` and `model`: keep the default when the child is
absent, raise `AttributeError` when the child has no text
(`None.strip()`). -/
def textField (parent : XE) (tag : PyStr) (dflt : PyStr) : Except PyErr PyStr :=
  match parent.children.findTag tag with
  | none => .ok dflt
  | some e =>
    match e.text with
    | none => .error .attributeError
    | some t => .ok (pyStrip t)

/-- The `elem = ctrl.find(tag); if elem is not None: port = int(elem.text)`
pattern used for the four port fields: `none` when the child is absent,
otherwise the parsed integer (propagating `TypeError`/`ValueError`). -/
def portField (ctrl : XE) (tag : PyStr) : Except PyErr (Option Int) :=
  match ctrl.children.findTag tag with
  | none => .ok none
  | some e => (pyIntOpt e.text).map some

/-- `Emotiva.__parse_transponder(transp_xml)`: extract name, model,
protocol version and the four ports from the discovery response tree.
When the tree has no `control` child, `ctrl.find(...)` is an attribute
access on `None` and raises `AttributeError`. -/
def parseTransponder (ip : PyStr) (tree : XE) : Except PyErr EmotivaDevice := do
  let name ← textField tree "name".data "Unknown".data
  let model ← textField tree "model".data "Unknown".data
  match tree.children.findTag "control".data with
  | none => .error .attributeError
  | some ctrl => do
    let protoVer : Option PyStr :=
      match ctrl.children.findTag "version".data with
      | none => none
      | some e => e.text
    let ctrlPort ← portField ctrl "controlPort".data
    let notifyPort ← portField ctrl "notifyPort".data
    let infoPort ← portField ctrl "infoPort".data
    let setupPortTcp ← portField ctrl "setupPortTCP".data
    pure { ip := ip, name := name, model := model, protoVer := protoVer,
           ctrlPort := ctrlPort, notifyPort := notifyPort,
           infoPort := infoPort, setupPortTcp := setupPortTcp }

/-- Python truthiness of an optional integer port: `None` and `0` are
falsy (`if not self._ctrl_port or not self._notify_port`). -/
def intTruthy : Option Int → Bool
  | none => false
  | some n => n ≠ 0

/-- `Emotiva.__init__(ip, transp_xml)`: parse the transponder response,
then raise `InvalidTransponderResponse` unless both the control port
and the notify port are truthy. -/
def emotivaInit (ip : PyStr) (transpXml : XE) : Except PyErr EmotivaDevice := do
  let d ← parseTransponder ip transpXml
  if intTruthy d.ctrlPort && intTruthy d.notifyPort then pure d
  else .error .invalidTransponderResponse

instance exceptDecEq {ε α : Type} [DecidableEq ε] [DecidableEq α] :
    DecidableEq (Except ε α) := fun x y =>
  match x, y with
  | .ok a, .ok b =>
    if h : a = b then .isTrue (congrArg Except.ok h)
    else .isFalse (fun hh => h (Except.ok.inj hh))
  | .error a, .error b =>
    if h : a = b then .isTrue (congrArg Except.error h)
    else .isFalse (fun hh => h (Except.error.inj hh))
  | .ok _, .error _ => .isFalse (fun hh => Except.noConfusion hh)
  | .error _, .ok _ => .isFalse (fun hh => Except.noConfusion hh)

/-- A well-formed transponder `control` block advertising control port
7002 and notify port 7003. -/
def ctrlExample : XE :=
  .mk "control".data [] none
    (XF.ofList [.mk "controlPort".data [] (some "7002".data) .nil none,
                .mk "notifyPort".data [] (some "7003".data) .nil none]) none

/-- A well-formed transponder tree with a name and the control block. -/
def transponderExample : XE :=
  .mk "emotivaTransponder".data [] none
    (XF.ofList [.mk "name".data [] (some " XMC-1 ".data) .nil none, ctrlExample]) none

/-! ## Wire codec: serialization (`Emotiva.format_request` / `ET.tostring`)

`format_request(pkt_type, req)` builds, with `ET.TreeBuilder`, a root
element named `pkt_type` whose children are one (childless, textless)
element per `(command, params)` pair, and returns
`XML_HEADER + ET.tostring(pkt)`.  `ET.tostring` with its default
`us-ascii` encoding emits no XML declaration of its own, writes
attributes in dict (insertion) order, uses short empty-element syntax
`<tag />`, escapes attribute values and character data, and
character-references every non-ASCII character
(`errors='xmlcharrefreplace'`). -/
/-- `xml.etree.ElementTree._escape_attrib`. -/
def escAttrib : PyStr → PyStr
  | [] => []
  | c :: rest =>
    (if c = '&' then "&amp;".data
     else if c = '<' then "&lt;".data
     else if c = '>' then "&gt;".data
     else if c = '"' then "&quot;".data
     else if c = '\r' then "&#13;".data
     else if c = '\n' then "&#10;".data
     else if c = '\t' then "&#09;".data
     else [c]) ++ escAttrib rest

/-- `xml.etree.ElementTree._escape_cdata`. -/
def escCdata : PyStr → PyStr
  | [] => []
  | c :: rest =>
    (if c = '&' then "&amp;".data
     else if c = '<' then "&lt;".data
     else if c = '>' then "&gt;".data
     else [c]) ++ escCdata rest

/-- One serialized attribute: `space key="escaped value"`. -/
def serAttr (kv : PyStr × PyStr) : PyStr :=
  ' ' :: (kv.1 ++ '=' :: '"' :: (escAttrib kv.2 ++ ['"']))

def serAttrsList : List (PyStr × PyStr) → PyStr
  | [] => []
  | kv :: rest => serAttr kv ++ serAttrsList rest

/-- Python truthiness of `elem.text` (`None` and `''` are falsy). -/
def optEmpty : Option PyStr → Bool
  | none => true
  | some t => t.isEmpty

def XF.isNil : XF → Bool
  | .nil => true
  | .cons _ _ => false

mutual
/-- `ET.tostring`'s `_serialize_xml` on one element (no namespaces,
default `short_empty_elements=True`): short form when the element has
no (truthy) text and no children, long form otherwise, followed by the
escaped tail. -/
def serXE : XE → PyStr
  | .mk tag attrs text children tail =>
    '<' :: (tag ++ serAttrsList attrs ++
      (if optEmpty text && children.isNil then " />".data
       else '>' :: (escCdata (text.getD []) ++ serXF children ++
         ('<' :: '/' :: (tag ++ ['>']))))) ++ escCdata (tail.getD [])
def serXF : XF → PyStr
  | .nil => []
  | .cons e es => serXE e ++ serXF es
end

/-- A decimal character reference, as produced by the
`xmlcharrefreplace` encoding error handler. -/
def charRefDec (n : Nat) : PyStr :=
  '&' :: '#' :: (Nat.toDigits 10 n ++ [';'])

/-- `str.encode('us-ascii', errors='xmlcharrefreplace')`: ASCII
characters pass through, anything else becomes a decimal character
reference. -/
def asciiEncode : PyStr → PyStr
  | [] => []
  | c :: rest => (if c.toNat < 128 then [c] else charRefDec c.toNat) ++ asciiEncode rest

/-- `Emotiva.XML_HEADER`. -/
def XML_HEADER : PyStr := "<?xml version=\"1.0\" encoding=\"utf-8\"?>".data

/-- The child element `TreeBuilder.start(cmd, params)` /
`TreeBuilder.end(cmd)` contributes for one `(command, params)` pair. -/
def leafElem (cp : PyStr × List (PyStr × PyStr)) : XE :=
  .mk cp.1 cp.2 none .nil none

/-- `Emotiva.format_request(pkt_type, req)`. -/
def format_request (pktType : PyStr) (req : List (PyStr × List (PyStr × PyStr))) : PyStr :=
  XML_HEADER ++ asciiEncode (serXE (.mk pktType [] none (XF.ofList (req.map leafElem)) none))

/-! ## Wire codec: parsing (`Emotiva._parse_response` / `ET.fromstring`)

An executable recursive-descent parser for the XML fragment the
protocol uses: an optional leading declaration / processing
instructions, nested elements with attributes, character data,
decimal/hex character references and the five predefined entities,
XML line-ending and attribute-value normalization, and expat's
well-formedness checks on names, characters, duplicate attributes,
tag matching and content outside the document element.  Comments,
CDATA sections and DOCTYPE declarations are outside the model (the
device protocol never produces them), as are non-ASCII names.
Failures model `xml.etree.ElementTree.ParseError` — the spec's
`MalformedResponse`.  The loops that consume one unbounded token run
on a fuel argument instantiated with the input length, which can never
run out (each step consumes at least one character). -/
inductive XmlErr where
  | badName
  | badAttrSyntax
  | dupAttr
  | badRef
  | badChar
  | unclosedToken
  | unsupportedMarkup
  | mismatchedTag
  | junkAfterDoc
  | noElement
  | noFuel
deriving DecidableEq, Repr

/-- XML `S` (white space) production. -/
def xmlIsSpace (c : Char) : Bool :=
  c = ' ' || c = '\t' || c = '\n' || c = '\r'

def nameStartChar (c : Char) : Bool :=
  (65 ≤ c.toNat && c.toNat ≤ 90) || (97 ≤ c.toNat && c.toNat ≤ 122) ||
  c = '_' || c = ':'

def nameChar (c : Char) : Bool :=
  nameStartChar c || (48 ≤ c.toNat && c.toNat ≤ 57) || c = '-' || c = '.'

/-- An XML `Name`, as accepted by `parseName`. -/
def validXmlName (s : PyStr) : Bool :=
  match s with
  | [] => false
  | c :: rest => nameStartChar c && rest.all nameChar

def parseName (s : PyStr) : Except XmlErr (PyStr × PyStr) :=
  match s with
  | [] => .error .badName
  | c :: rest =>
    if nameStartChar c then .ok (c :: rest.takeWhile nameChar, rest.dropWhile nameChar)
    else .error .badName

/-- The XML `Char` production (codepoints legal in a document). -/
def xmlValidCode (n : Nat) : Bool :=
  n = 0x9 || n = 0xA || n = 0xD || (0x20 ≤ n && n ≤ 0xD7FF) ||
  (0xE000 ≤ n && n ≤ 0xFFFD) || (0x10000 ≤ n && n ≤ 0x10FFFF)

def isHexDigit (c : Char) : Bool :=
  c.isDigit || ('a' ≤ c && c ≤ 'f') || ('A' ≤ c && c ≤ 'F')

def hexVal (c : Char) : Nat :=
  if c.isDigit then c.toNat - '0'.toNat
  else if 'a' ≤ c && c ≤ 'f' then c.toNat - 'a'.toNat + 10
  else c.toNat - 'A'.toNat + 10

def hexToNat (ds : PyStr) : Nat :=
  ds.foldl (fun n c => 16 * n + hexVal c) 0

/-- A reference after a consumed `&`: decimal or hex character
reference, or one of the five predefined entities (expat has no other
entities without a DTD). -/
def parseRef (s : PyStr) : Except XmlErr (Char × PyStr) :=
  match s with
  | '#' :: 'x' :: rest =>
    let ds := rest.takeWhile isHexDigit
    match rest.dropWhile isHexDigit with
    | ';' :: r2 =>
      if ds ≠ [] ∧ xmlValidCode (hexToNat ds) then .ok (Char.ofNat (hexToNat ds), r2)
      else .error .badRef
    | _ => .error .badRef
  | '#' :: rest =>
    let ds := rest.takeWhile Char.isDigit
    match rest.dropWhile Char.isDigit with
    | ';' :: r2 =>
      if ds ≠ [] ∧ xmlValidCode (digitsToNat ds) then .ok (Char.ofNat (digitsToNat ds), r2)
      else .error .badRef
    | _ => .error .badRef
  | rest =>
    let nm := rest.takeWhile Char.isAlpha
    match rest.dropWhile Char.isAlpha with
    | ';' :: r2 =>
      if nm = "amp".data then .ok ('&', r2)
      else if nm = "lt".data then .ok ('<', r2)
      else if nm = "gt".data then .ok ('>', r2)
      else if nm = "quot".data then .ok ('"', r2)
      else if nm = "apos".data then .ok ('\'', r2)
      else .error .badRef
    | _ => .error .badRef

/-- An attribute value up to the closing quote, with line-ending
normalization (`\r\n`, `\r` → `\n`) followed by attribute-value
normalization (whitespace → space), references resolved, raw `<` and
illegal control characters rejected. -/
def parseAttrValue (quote : Char) : Nat → PyStr → Except XmlErr (PyStr × PyStr)
  | 0, _ => .error .noFuel
  | _ + 1, [] => .error .unclosedToken
  | fuel + 1, c :: rest =>
    if c = quote then .ok ([], rest)
    else if c = '<' then .error .badChar
    else if c = '&' then
      match parseRef rest with
      | .error e => .error e
      | .ok (ch, r2) =>
        match parseAttrValue quote fuel r2 with
        | .ok (v, r3) => .ok (ch :: v, r3)
        | .error e => .error e
    else if c = '\r' then
      match rest with
      | '\n' :: r2 =>
        (match parseAttrValue quote fuel r2 with
         | .ok (v, r3) => .ok (' ' :: v, r3)
         | .error e => .error e)
      | _ =>
        match parseAttrValue quote fuel rest with
        | .ok (v, r3) => .ok (' ' :: v, r3)
        | .error e => .error e
    else if c = '\n' || c = '\t' then
      match parseAttrValue quote fuel rest with
      | .ok (v, r3) => .ok (' ' :: v, r3)
      | .error e => .error e
    else if c.toNat < 0x20 then .error .badChar
    else
      match parseAttrValue quote fuel rest with
      | .ok (v, r3) => .ok (c :: v, r3)
      | .error e => .error e

/-- The attribute list of a start tag, ending at `>` or `/>`.  Expat
requires whitespace before each attribute, whitespace around `=` is
allowed, values are single- or double-quoted, and duplicate attribute
names are a well-formedness error. -/
def parseAttrs : Nat → PyStr → List (PyStr × PyStr) →
    Except XmlErr (List (PyStr × PyStr) × Bool × PyStr)
  | 0, _, _ => .error .noFuel
  | fuel + 1, s, acc =>
    match s.dropWhile xmlIsSpace with
    | [] => .error .unclosedToken
    | c1 :: r1 =>
      if c1 = '>' then .ok (acc, false, r1)
      else if c1 = '/' then
        match r1 with
        | '>' :: r => .ok (acc, true, r)
        | _ => .error .badAttrSyntax
      else
        match s with
        | [] => .error .unclosedToken
        | c0 :: _ =>
          if xmlIsSpace c0 then
            match parseName (c1 :: r1) with
            | .error e => .error e
            | .ok (k, r2) =>
              match r2.dropWhile xmlIsSpace with
              | '=' :: r3 =>
                (match r3.dropWhile xmlIsSpace with
                 | q :: r4 =>
                   if q = '"' || q = '\'' then
                     match parseAttrValue q (r4.length + 1) r4 with
                     | .error e => .error e
                     | .ok (v, r5) =>
                       if dictContains acc k then .error .dupAttr
                       else parseAttrs fuel r5 (acc ++ [(k, v)])
                   else .error .badAttrSyntax
                 | [] => .error .unclosedToken)
              | _ => .error .badAttrSyntax
          else .error .badAttrSyntax

/-- Character data up to the next `<` or end of input, with references
resolved, line endings normalized and illegal control characters
rejected. -/
def parseCharData : Nat → PyStr → Except XmlErr (PyStr × PyStr)
  | 0, _ => .error .noFuel
  | _ + 1, [] => .ok ([], [])
  | fuel + 1, c :: rest =>
    if c = '<' then .ok ([], c :: rest)
    else if c = '&' then
      match parseRef rest with
      | .error e => .error e
      | .ok (ch, r2) =>
        match parseCharData fuel r2 with
        | .ok (v, r3) => .ok (ch :: v, r3)
        | .error e => .error e
    else if c = '\r' then
      match rest with
      | '\n' :: r2 =>
        (match parseCharData fuel r2 with
         | .ok (v, r3) => .ok ('\n' :: v, r3)
         | .error e => .error e)
      | _ =>
        match parseCharData fuel rest with
        | .ok (v, r3) => .ok ('\n' :: v, r3)
        | .error e => .error e
    else if c.toNat < 0x20 && !(c = '\t' || c = '\n') then .error .badChar
    else
      match parseCharData fuel rest with
      | .ok (v, r3) => .ok (c :: v, r3)
      | .error e => .error e

/-- Skip a processing instruction / the XML declaration up to `?>`. -/
def skipPI : PyStr → Option PyStr
  | '?' :: '>' :: r => some r
  | _ :: r => skipPI r
  | [] => none

/-- Lexer events, mirroring the expat events `ET.XMLParser` feeds to
`TreeBuilder`. -/
inductive XmlTok where
  | startTag (tag : PyStr) (attrs : List (PyStr × PyStr)) (selfClose : Bool)
  | endTag (tag : PyStr)
  | charData (s : PyStr)
deriving DecidableEq, Repr

def consTok (t : XmlTok) : Except XmlErr (List XmlTok) → Except XmlErr (List XmlTok)
  | .ok ts => .ok (t :: ts)
  | .error e => .error e

/-- The token stream of a document.  One fuel unit per token; each
token consumes at least one character, so `length + 1` fuel always
suffices. -/
def tokenizeAux : Nat → PyStr → Except XmlErr (List XmlTok)
  | 0, _ => .error .noFuel
  | _ + 1, [] => .ok []
  | fuel + 1, c :: rest =>
    if c = '<' then
      match rest with
      | [] => .error .badName
      | c2 :: rest2 =>
        if c2 = '?' then
          match skipPI rest2 with
          | some r2 => tokenizeAux fuel r2
          | none => .error .unclosedToken
        else if c2 = '!' then .error .unsupportedMarkup
        else if c2 = '/' then
          match parseName rest2 with
          | .error e => .error e
          | .ok (tag, r1) =>
            match r1.dropWhile xmlIsSpace with
            | '>' :: r2 => consTok (.endTag tag) (tokenizeAux fuel r2)
            | _ => .error .badAttrSyntax
        else
          match parseName (c2 :: rest2) with
          | .error e => .error e
          | .ok (tag, r1) =>
            match parseAttrs (r1.length + 1) r1 [] with
            | .error e => .error e
            | .ok (attrs, sc, r2) => consTok (.startTag tag attrs sc) (tokenizeAux fuel r2)
    else
      match parseCharData ((c :: rest).length + 1) (c :: rest) with
      | .error e => .error e
      | .ok (txt, r2) => consTok (.charData txt) (tokenizeAux fuel r2)

/-- An element whose start tag has been seen but not yet its end tag:
the in-progress state `TreeBuilder` keeps on its stack. -/
structure OpenElem where
  tag : PyStr
  attrs : List (PyStr × PyStr)
  text : Option PyStr
  children : List XE
deriving DecidableEq, Repr

def updateLast (f : XE → XE) : List XE → List XE
  | [] => []
  | [x] => [f x]
  | x :: xs => x :: updateLast f xs

/-- `TreeBuilder.data`: character data goes to the open element's text
if it has no children yet, else to its last child's tail. -/
def openAddData (o : OpenElem) (s : PyStr) : OpenElem :=
  match o.children with
  | [] => { o with text := some (o.text.getD [] ++ s) }
  | _ :: _ =>
    { o with children :=
        updateLast (fun c => c.setTail (some (c.tail.getD [] ++ s))) o.children }

/-- `TreeBuilder.end`: seal an open element into an `XE`. -/
def closeOpen (o : OpenElem) : XE :=
  .mk o.tag o.attrs o.text (XF.ofList o.children) none

/-- Run the `TreeBuilder` stack machine over the token stream:
whitespace-only character data is allowed outside the document
element, anything else there is a well-formedness error; end tags must
match the innermost open start tag; input ending with open elements is
an error. -/
def buildAux : List XmlTok → List OpenElem → Option XE → Except XmlErr XE
  | [], [], some root => .ok root
  | [], [], none => .error .noElement
  | [], _ :: _, _ => .error .unclosedToken
  | tok :: rest, stack, rootDone =>
    match tok with
    | .charData s =>
      (match stack with
       | [] => if s.all xmlIsSpace then buildAux rest [] rootDone else .error .junkAfterDoc
       | o :: os => buildAux rest (openAddData o s :: os) rootDone)
    | .startTag tag attrs sc =>
      (match rootDone with
       | some _ => .error .junkAfterDoc
       | none =>
         if sc then
           match stack with
           | [] => buildAux rest [] (some (.mk tag attrs none .nil none))
           | o :: os =>
             buildAux rest
               ({ o with children := o.children ++ [.mk tag attrs none .nil none] } :: os)
               none
         else buildAux rest (⟨tag, attrs, none, []⟩ :: stack) none)
    | .endTag tag =>
      match stack with
      | [] => .error .mismatchedTag
      | o :: os =>
        if o.tag = tag then
          match os with
          | [] => buildAux rest [] (some (closeOpen o))
          | p :: ps =>
            buildAux rest ({ p with children := p.children ++ [closeOpen o] } :: ps) rootDone
        else .error .mismatchedTag

/-- `ET.fromstring`. -/
def xmlParse (s : PyStr) : Except XmlErr XE :=
  match tokenizeAux (s.length + 1) s with
  | .error e => .error e
  | .ok toks => buildAux toks [] none

/-- `Emotiva._parse_response(data)`: split the payload into lines,
strip each line, join, and parse the result as XML (the `ParseError`
of a payload that remains invalid propagates to the caller). -/
def parse_response (data : PyStr) : Except XmlErr XE :=
  xmlParse (stripJoin data)

/-! ## C4: decode = strip-join then parse -/
/-- The spec's name for a decode failure. -/
inductive MalformedResponse where
  | malformed
deriving DecidableEq, Repr

/-- Modelled from the spec's words for C4: remove the trailing
whitespace of a line (recursing from the front, unlike the
reverse/dropWhile/reverse composition the code side uses). -/
def specTrimRight : PyStr → PyStr
  | [] => []
  | c :: rest =>
    match specTrimRight rest with
    | [] => if pyIsSpace c then [] else [c]
    | r => c :: r

/-- Modelled from the spec's words for C4: `decode` strips
leading/trailing whitespace from each newline-separated line,
concatenates the lines, and parses; a payload that still fails to
parse is a `MalformedResponse`. -/
def decodeSpec (data : PyStr) : Except MalformedResponse XE :=
  let normalized :=
    pyJoin ((pySplitNl data).map (fun l => specTrimRight (l.dropWhile pyIsSpace)))
  match xmlParse normalized with
  | .ok root => .ok root
  | .error _ => .error .malformed

/-! ## C5: `Emotiva._send_request` -/
/-- The value a Python function call evaluates to: `None` for a bare
return / falling off the end, or a list of decoded reply trees. -/
inductive PyRet where
  | pyNone
  | pyList (xs : List XE)
deriving DecidableEq, Repr

/-- `Emotiva._send_request(req)` after the initial `sendto`: the drain
loop receives datagrams until the socket timeout.  `arrived` is the
sequence of reply datagrams the socket yields before the first
timeout; each is decoded with `_parse_response` (a decode failure
propagates), the decoded tree is discarded, and on timeout the loop
breaks and the function returns `None` — there is no `return`
statement. -/
def send_request (arrived : List PyStr) : Except XmlErr PyRet :=
  match arrived with
  | [] => .ok .pyNone
  | d :: rest =>
    match parse_response d with
    | .ok _ => send_request rest
    | .error e => .error e

/-! ## C7: `Emotiva.discover` -/
/-- The collection loop of `Emotiva.discover()`: `arrivals` is the
sequence of `(source address, payload)` datagrams received on the
response socket before the first timeout.  Each payload is decoded
with `_parse_response` inside the `try` block, so a decode failure
propagates out of `discover`, discarding the local `devices` list;
on timeout the accumulated `(ip, tree)` pairs are returned. -/
def discover (arrivals : List (PyStr × PyStr)) : Except XmlErr (List (PyStr × XE)) :=
  match arrivals with
  | [] => .ok []
  | (ip, d) :: rest =>
    match parse_response d with
    | .ok r =>
      (match discover rest with
       | .ok l => .ok ((ip, r) :: l)
       | .error e => .error e)
    | .error e => .error e

/-! ## C8: encode/decode round trip

The round trip cannot hold for arbitrary strings (the counterexample
below feeds a command name with a space), so the amended claim
restricts names to XML names and attribute values to XML-encodable
ASCII text.  The lemmas here walk the parser through the exact output
of the serializer. -/
/-- A character that survives in an attribute value: ASCII and legal
in an XML document (`Char` production), i.e. not a control character
other than tab/newline/carriage return. -/
def attrSafeChar (c : Char) : Bool :=
  c.toNat < 128 && (c = '\t' || c = '\n' || c = '\r' || 32 ≤ c.toNat)

def attrSafe (v : PyStr) : Bool := v.all attrSafeChar

/-! ## Dict lemmas -/
theorem dictLookup_append {α β : Type} [DecidableEq α] (l1 l2 : List (α × β)) (k : α) :
    dictLookup (l1 ++ l2) k =
      (match dictLookup l1 k with
       | some v => some v
       | none => dictLookup l2 k) := by
  induction l1 with
  | nil => simp [dictLookup]
  | cons hd tl ih =>
    obtain ⟨k', v'⟩ := hd
    by_cases h : k' = k <;> simp [dictLookup, h, ih]

theorem dictLookup_eq_none_iff {α β : Type} [DecidableEq α] (m : List (α × β)) (k : α) :
    dictLookup m k = none ↔ k ∉ m.map Prod.fst := by
  induction m with
  | nil => simp [dictLookup]
  | cons hd tl ih =>
    obtain ⟨k', v'⟩ := hd
    by_cases h : k' = k <;> simp [dictLookup, h, ih] <;> tauto

theorem dictLookup_isSome_iff {α β : Type} [DecidableEq α] (m : List (α × β)) (k : α) :
    (dictLookup m k).isSome ↔ k ∈ m.map Prod.fst := by
  induction m with
  | nil => simp [dictLookup]
  | cons hd tl ih =>
    obtain ⟨k', v'⟩ := hd
    by_cases h : k' = k
    · simp [dictLookup, h]
    · simp [dictLookup, h, ih]
      exact fun hk => absurd hk.symm h

/-- `register` never changes `_devs` except possibly appending a new
address, and never changes it at all for an already-registered address. -/
theorem notifierRegister_devs_eq {Cb : Type} (s : NotifierState Cb) (ip : PyStr)
    (port : Nat) (cb : Cb) (h : dictContains s.devs ip = true) :
    (notifierRegister s ip port cb).devs = s.devs := by
  unfold notifierRegister
  by_cases hp : dictContains s.socksByPort port = true <;> simp [hp, h]

/-- Helper: a dispatch step with a live socket and a registered source
address yields exactly the registered callback with the datagram. -/
theorem dispatchStep_ok {Cb : Type} {s : NotifierState Cb} {fd : Nat}
    {sock : UdpSock} {A : PyStr} {cb : Cb} (d : PyStr)
    (hsock : dictLookup s.socksByFileno fd = some sock)
    (hreg : dictLookup s.devs A = some cb) :
    dispatchStep s fd A d = .ok (cb, d) := by
  simp [dispatchStep, hsock, hreg]

/-- C1: a dispatch step for a datagram from a registered address `A`
invokes exactly the callback registered for `A` (with the datagram's
bytes), and no differing callback — in particular none registered for
another address — is invoked with that datagram.  The listening port
plays no role: lookup is purely by source address, so the result is the
same when several devices share one socket. -/
theorem c1_dispatch_by_source_address {Cb : Type} (s : NotifierState Cb) (fd : Nat)
    (sock : UdpSock) (A : PyStr) (d : PyStr) (cb : Cb)
    (hsock : dictLookup s.socksByFileno fd = some sock)
    (hreg : dictLookup s.devs A = some cb) :
    dispatchStep s fd A d = .ok (cb, d) ∧
    ∀ cb' : Cb, cb' ≠ cb → dispatchStep s fd A d ≠ .ok (cb', d) := by
  refine ⟨dispatchStep_ok d hsock hreg, ?_⟩
  intro cb' hne
  rw [dispatchStep_ok d hsock hreg]
  intro h
  exact hne (congrArg Prod.fst (Except.ok.inj h)).symm

/-- C1 witness: two devices sharing port 7025; a datagram from the
first device's address is dispatched to its callback (id 10), not to
the other (id 20). -/
theorem c1_witness :
    dictLookup ((notifierRegister (notifierRegister (notifierInit Nat)
        "192.168.1.20".data 7025 10) "192.168.1.21".data 7025 20).socksByFileno) 0 =
      some ⟨0, 7025⟩ ∧
    dictLookup ((notifierRegister (notifierRegister (notifierInit Nat)
        "192.168.1.20".data 7025 10) "192.168.1.21".data 7025 20).devs)
        "192.168.1.20".data = some 10 ∧
    dispatchStep (notifierRegister (notifierRegister (notifierInit Nat)
        "192.168.1.20".data 7025 10) "192.168.1.21".data 7025 20) 0
        "192.168.1.20".data "<emotivaNotify />".data = .ok (10, "<emotivaNotify />".data) := by
  refine ⟨by decide, by decide, ?_⟩
  exact (c1_dispatch_by_source_address _ 0 ⟨0, 7025⟩ _ _ 10 (by decide) (by decide)).1

/-- C2: re-registering an already-registered address leaves its
callback unchanged (first registration wins): after
`register(A, p, cb2)`, the callback looked up for `A` is still `cb1`,
and every subsequent dispatch of a datagram from `A` invokes `cb1`,
never `cb2` (unless `cb2` happens to equal `cb1`). -/
theorem c2_first_registration_wins {Cb : Type} (s : NotifierState Cb) (A : PyStr)
    (p : Nat) (cb1 cb2 : Cb) (h : dictLookup s.devs A = some cb1) :
    dictLookup (notifierRegister s A p cb2).devs A = some cb1 ∧
    ∀ fd sock d, dictLookup (notifierRegister s A p cb2).socksByFileno fd = some sock →
      dispatchStep (notifierRegister s A p cb2) fd A d = .ok (cb1, d) := by
    have hdevs : (notifierRegister s A p cb2).devs = s.devs :=
      notifierRegister_devs_eq s A p cb2 (by simp [dictContains, h])
    refine ⟨by rw [hdevs]; exact h, ?_⟩
    intro fd sock d hsock
    exact dispatchStep_ok d hsock (by rw [hdevs]; exact h)

/-- C2 witness: register address twice with callbacks 10 then 20 on
the same port; lookup still yields 10 and dispatch invokes 10. -/
theorem c2_witness :
    dictLookup ((notifierRegister (notifierRegister (notifierInit Nat)
        "192.168.1.20".data 7025 10) "192.168.1.20".data 7025 20).devs)
        "192.168.1.20".data = some 10 := by
  exact (c2_first_registration_wins (notifierRegister (notifierInit Nat)
    "192.168.1.20".data 7025 10) "192.168.1.20".data 7025 10 20 (by decide)).1

/-- C3 (code divergence): the `run` loop does `cb = self._devs[ip]`
with no membership check, so a datagram from an address with no
registered callback raises `KeyError` — it is not silently dropped.
Here one device is registered on port 7025 (socket fd 0), and a
datagram from the unregistered address 10.0.0.9 arrives on that
socket: the dispatch step fails with `KeyError('10.0.0.9')`. -/
theorem c3_unregistered_address_keyerror :
    dispatchStep (notifierRegister (notifierInit Nat) "192.168.1.20".data 7025 10) 0
        "10.0.0.9".data "<emotivaNotify />".data =
      .error (.keyErrorAddr "10.0.0.9".data) := rfl

theorem nodup_append_singleton {α : Type} {xs : List α} {x : α} (h1 : xs.Nodup)
    (h2 : x ∉ xs) : (xs ++ [x]).Nodup := by
  induction xs with
  | nil => simp
  | cons a tl ih =>
    rcases List.nodup_cons.mp h1 with ⟨ha, htl⟩
    refine List.nodup_cons.mpr ⟨?_, ih htl (fun hx => h2 (List.mem_cons_of_mem a hx))⟩
    intro hmem
    rcases List.mem_append.mp hmem with h | h
    · exact ha h
    · rw [List.mem_singleton] at h
      subst h
      exact h2 (List.mem_cons_self _ _)

/-- The invariant ignores the `_devs` map, so the trailing
callback-installation step of `register` cannot disturb it. -/
theorem notifierInv_devs_irrel {Cb : Type} (s : NotifierState Cb) (d : List (PyStr × Cb)) :
    notifierInv { s with devs := d } ↔ notifierInv s := Iff.rfl

/-- C10: `register` keeps the two socket maps consistent — unique keys
in both, every socket reachable from its port entry is stored in the
fileno map under its own descriptor — and creates no second socket for
a port that already has one (both maps are left untouched in that
case), so at most one socket ever exists per distinct port. -/
theorem notifierRegister_eq_of_contains {Cb : Type} {s : NotifierState Cb} {p : Nat}
    (ip : PyStr) (cb : Cb) (hp : dictContains s.socksByPort p = true) :
    notifierRegister s ip p cb =
      if dictContains s.devs ip then s else { s with devs := s.devs ++ [(ip, cb)] } := by
  unfold notifierRegister
  rw [if_pos hp]

theorem notifierRegister_eq_of_not_contains {Cb : Type} {s : NotifierState Cb} {p : Nat}
    (ip : PyStr) (cb : Cb) (hp : ¬dictContains s.socksByPort p = true) :
    notifierRegister s ip p cb =
      (let s1 : NotifierState Cb :=
        { s with
          socksByPort := s.socksByPort ++ [(p, ⟨s.nextFd, p⟩)]
          socksByFileno := s.socksByFileno ++ [(s.nextFd, ⟨s.nextFd, p⟩)]
          epollSet := s.epollSet ++ [s.nextFd]
          nextFd := s.nextFd + 1 }
       if dictContains s1.devs ip then s1 else { s1 with devs := s1.devs ++ [(ip, cb)] }) := by
  unfold notifierRegister
  rw [if_neg hp]

/-- C10: `register` keeps the two socket maps consistent — unique keys
in both, every socket reachable from its port entry is stored in the
fileno map under its own descriptor — and creates no second socket for
a port that already has one (both maps are left untouched in that
case), so at most one socket ever exists per distinct port. -/
theorem c10_register_preserves_sock_maps {Cb : Type} (s : NotifierState Cb) (ip : PyStr)
    (p : Nat) (cb : Cb) (h : notifierInv s) :
    notifierInv (notifierRegister s ip p cb) ∧
    (dictContains s.socksByPort p = true →
      (notifierRegister s ip p cb).socksByPort = s.socksByPort ∧
      (notifierRegister s ip p cb).socksByFileno = s.socksByFileno) := by
  obtain ⟨h1, h2, h3, h4⟩ := h
  by_cases hp : dictContains s.socksByPort p = true
  · rw [notifierRegister_eq_of_contains ip cb hp]
    by_cases hd : dictContains s.devs ip = true
    · rw [if_pos hd]
      exact ⟨⟨h1, h2, h3, h4⟩, fun _ => ⟨rfl, rfl⟩⟩
    · rw [if_neg hd]
      exact ⟨⟨h1, h2, h3, h4⟩, fun _ => ⟨rfl, rfl⟩⟩
  · have hnotin : p ∉ s.socksByPort.map Prod.fst := by
      rw [← dictLookup_eq_none_iff]
      cases hl : dictLookup s.socksByPort p with
      | none => rfl
      | some v => exact absurd (by simp [dictContains, hl]) hp
    have hfdnotin : s.nextFd ∉ s.socksByFileno.map Prod.fst := by
      intro hmem
      obtain ⟨e, he, hfst⟩ := List.mem_map.mp hmem
      exact absurd (hfst ▸ (h4 e he).2) (lt_irrefl _)
    have hinv1 : notifierInv
        { s with
          socksByPort := s.socksByPort ++ [(p, ⟨s.nextFd, p⟩)]
          socksByFileno := s.socksByFileno ++ [(s.nextFd, ⟨s.nextFd, p⟩)]
          epollSet := s.epollSet ++ [s.nextFd]
          nextFd := s.nextFd + 1 } := by
      refine ⟨?_, ?_, ?_, ?_⟩
      · simpa using nodup_append_singleton h1 hnotin
      · simpa using nodup_append_singleton h2 hfdnotin
      · intro e he
        simp only [List.mem_append, List.mem_singleton] at he
        cases he with
        | inl hold =>
          refine ⟨(h3 e hold).1, ?_⟩
          rw [dictLookup_append, (h3 e hold).2]
        | inr hnew =>
          subst hnew
          refine ⟨rfl, ?_⟩
          rw [dictLookup_append,
            (dictLookup_eq_none_iff s.socksByFileno s.nextFd).mpr hfdnotin]
          simp [dictLookup]
      · intro e he
        simp only [List.mem_append, List.mem_singleton] at he
        cases he with
        | inl hold => exact ⟨(h4 e hold).1, Nat.lt_succ_of_lt (h4 e hold).2⟩
        | inr hnew => subst hnew; exact ⟨rfl, Nat.lt_succ_self _⟩
    rw [notifierRegister_eq_of_not_contains ip cb hp]
    refine ⟨?_, fun habs => absurd habs hp⟩
    by_cases hd : dictContains
        (s.devs)
        ip = true
    · simp only []
      rw [if_pos hd]
      exact hinv1
    · simp only []
      rw [if_neg hd]
      exact hinv1

/-- C10 witness: from the freshly constructed notifier state, register
two devices sharing one port and a third on another port; the
invariant holds at each step and the shared port's socket is created
only once. -/
theorem c10_witness :
    notifierInv (notifierRegister (notifierInit Nat) "192.168.1.20".data 7025 10) ∧
    (dictContains (notifierInit Nat).socksByPort 7025 = true →
      (notifierRegister (notifierInit Nat) "192.168.1.20".data 7025 10).socksByPort =
        (notifierInit Nat).socksByPort ∧
      (notifierRegister (notifierInit Nat) "192.168.1.20".data 7025 10).socksByFileno =
        (notifierInit Nat).socksByFileno) :=
  c10_register_preserves_sock_maps (notifierInit Nat) "192.168.1.20".data 7025 10
    (by decide)

/-- C6 counterexample: a discovery response with no `control` element —
from which the notify port certainly cannot be extracted — does NOT
fail with `InvalidTransponderResponse`: `__parse_transponder` calls
`.find` on the `None` returned by `transp_xml.find('control')` and
raises `AttributeError` instead. -/
theorem c6_counterexample :
    emotivaInit "10.0.0.5".data (XE.mk "emotivaTransponder".data [] none .nil none) =
      .error .attributeError ∧
    emotivaInit "10.0.0.5".data (XE.mk "emotivaTransponder".data [] none .nil none) ≠
      .error .invalidTransponderResponse := by
  constructor
  · rfl
  · decide

/-- The port-truthiness gate at the end of `Emotiva.__init__`. -/
theorem emotivaInit_eq_of_parse {ip : PyStr} {tree : XE} {d : EmotivaDevice}
    (hrun : parseTransponder ip tree = .ok d) :
    emotivaInit ip tree =
      if intTruthy d.ctrlPort && intTruthy d.notifyPort
      then .ok d else .error .invalidTransponderResponse := by
  unfold emotivaInit
  rw [hrun]
  rfl

/-- C6, amended: over transponder trees that do have a `control` child
and whose present `name`/`model`/port elements are well-formed (text
present where accessed, numeric where converted), construction
succeeds exactly when both extracted ports are truthy (present and
nonzero), and otherwise fails with `InvalidTransponderResponse`. -/
theorem c6_amended (ip : PyStr) (tree ctrl : XE) (nm md : PyStr)
    (cp np ipo sp : Option Int)
    (hc : tree.children.findTag "control".data = some ctrl)
    (hn : textField tree "name".data "Unknown".data = .ok nm)
    (hm : textField tree "model".data "Unknown".data = .ok md)
    (h1 : portField ctrl "controlPort".data = .ok cp)
    (h2 : portField ctrl "notifyPort".data = .ok np)
    (h3 : portField ctrl "infoPort".data = .ok ipo)
    (h4 : portField ctrl "setupPortTCP".data = .ok sp) :
    ((intTruthy cp && intTruthy np) = true → (emotivaInit ip tree).isOk = true) ∧
    ((intTruthy cp && intTruthy np) = false →
      emotivaInit ip tree = .error .invalidTransponderResponse) := by
  have hrun : parseTransponder ip tree = .ok
      { ip := ip, name := nm, model := md
        protoVer := (match ctrl.children.findTag "version".data with
                     | none => none
                     | some e => e.text)
        ctrlPort := cp, notifyPort := np, infoPort := ipo, setupPortTcp := sp } := by
    unfold parseTransponder
    rw [hn, hm, hc]
    simp only [Except.bind, h1, h2, h3, h4]
    rfl
  have hinit := emotivaInit_eq_of_parse hrun
  constructor
  · intro hb
    have hcond : (intTruthy cp && intTruthy np) = true := hb
    rw [hinit, if_pos hcond]
    rfl
  · intro hb
    have hcond : ¬((intTruthy cp && intTruthy np) = true) := by
      rw [hb]
      exact Bool.false_ne_true
    rw [hinit, if_neg hcond]

/-- C6 witness: constructing a session from the well-formed example
advertisement succeeds. -/
theorem c6_witness : (emotivaInit "10.0.0.5".data transponderExample).isOk = true :=
  (c6_amended "10.0.0.5".data transponderExample ctrlExample "XMC-1".data "Unknown".data
    (some 7002) (some 7003) none none (by decide) (by decide) (by decide) (by decide)
    (by decide) (by decide) (by decide)).1 (by decide)

/-- C9: `format_request('emotivaControl', [('volume', {'value': '1',
'ack': 'yes'})])` produces exactly the fixed XML declaration header
immediately followed by
`<emotivaControl><volume value="1" ack="yes" /></emotivaControl>` —
with the attributes in dict insertion order (`value` first), which is
one of the two orders the claim allows, carrying exactly these
values. -/
theorem c9_format_request_volume :
    format_request "emotivaControl".data
        [("volume".data, [("value".data, "1".data), ("ack".data, "yes".data)])] =
      ("<?xml version=\"1.0\" encoding=\"utf-8\"?>" ++
        "<emotivaControl><volume value=\"1\" ack=\"yes\" /></emotivaControl>").data := by
  decide

theorem dropWhile_append_singleton {α : Type} (p : α → Bool) (xs : List α) (c : α) :
    (xs ++ [c]).dropWhile p =
      match xs.dropWhile p with
      | [] => if p c then [] else [c]
      | r => r ++ [c] := by
  induction xs with
  | nil =>
    simp only [List.nil_append, List.dropWhile]
    cases hc : p c <;> simp
  | cons x xs ih =>
    by_cases hx : p x
    · simpa [List.dropWhile, hx] using ih
    · simp [List.dropWhile, hx]

theorem specTrimRight_eq (s : PyStr) :
    specTrimRight s = (s.reverse.dropWhile pyIsSpace).reverse := by
  induction s with
  | nil => rfl
  | cons c rest ih =>
    show (match specTrimRight rest with
          | [] => if pyIsSpace c then [] else [c]
          | r => c :: r) = _
    rw [ih]
    rw [show (c :: rest).reverse = rest.reverse ++ [c] by simp]
    rw [dropWhile_append_singleton]
    cases hdw : rest.reverse.dropWhile pyIsSpace with
    | nil =>
      simp only [List.reverse_nil]
      by_cases hc : pyIsSpace c = true <;> simp [hc]
    | cons h t => simp

/-- C4: `_parse_response` is exactly the spec's decode procedure —
split the byte payload on newlines, strip each line, concatenate, and
parse: when the normalized text parses, the root Response Tree is
returned; when it still fails to parse, the failure is the
`MalformedResponse` error kind (`ET.ParseError`). -/
theorem c4_decode_strip_join (data : PyStr) :
    decodeSpec data =
      match parse_response data with
      | .ok root => .ok root
      | .error _ => .error .malformed := by
  have hmap : (pySplitNl data).map (fun l => specTrimRight (l.dropWhile pyIsSpace)) =
      (pySplitNl data).map pyStrip := by
    apply List.map_congr_left
    intro l _
    rw [specTrimRight_eq]
    rfl
  unfold decodeSpec parse_response stripJoin
  rw [hmap]

/-- C5 counterexample: with a peer that never replies, `_send_request`
completes after the timeout — but it evaluates to `None`, not to the
empty list of replies the claim promises. -/
theorem c5_counterexample :
    send_request [] = .ok .pyNone ∧ send_request [] ≠ .ok (.pyList []) := by
  exact ⟨rfl, by decide⟩

/-- C5, amended: `_send_request` drains and decodes the replies that
arrive before the first receive timeout and then returns — without
raising, treating the timeout as normal termination — but its value is
`None`; the decoded replies are discarded, not returned as a list.  In
particular a silent peer yields `None` after one timeout interval. -/
theorem c5_amended (arrived : List PyStr)
    (h : ∀ d ∈ arrived, (parse_response d).isOk = true) :
    send_request arrived = .ok .pyNone := by
  induction arrived with
  | nil => rfl
  | cons d rest ih =>
    have hd := h d (List.mem_cons_self _ _)
    unfold send_request
    cases hp : parse_response d with
    | error e => rw [hp] at hd; exact absurd hd (by simp [Except.isOk, Except.toBool])
    | ok r => exact ih (fun x hx => h x (List.mem_cons_of_mem _ hx))

/-- C5 witness: one well-formed reply arrives, then the timeout:
`_send_request` returns `None` without raising. -/
theorem c5_witness :
    (∀ d ∈ ["<emotivaAck><volume /></emotivaAck>".data], (parse_response d).isOk = true) ∧
    send_request ["<emotivaAck><volume /></emotivaAck>".data] = .ok .pyNone :=
  ⟨by decide, c5_amended _ (by decide)⟩

/-- C7 (code divergence): a garbled datagram aborts the whole
discovery.  The first datagram decodes fine on its own, but because
the second one fails to decode, `discover` raises `ParseError` and
returns nothing — the claim (and the spec's §4.2/§9, which flag this
as a bug) requires the successfully decoded `10.0.0.1` entry to still
be returned. -/
theorem c7_discover_aborts_on_bad_datagram :
    parse_response "<emotivaTransponder />".data =
      .ok (.mk "emotivaTransponder".data [] none .nil none) ∧
    discover [("10.0.0.1".data, "<emotivaTransponder />".data),
              ("10.0.0.2".data, "<oops".data)] = .error .unclosedToken := by
  exact ⟨by decide, by decide⟩

theorem char_eq_toNat {c d : Char} (h : c = d) : c.toNat = d.toNat := by rw [h]

theorem char_ne_of_toNat_ne {c d : Char} (h : c.toNat ≠ d.toNat) : c ≠ d :=
  fun hc => h (char_eq_toNat hc)

/-- The numeric ranges behind `nameStartChar`. -/
theorem nameStartChar_ranges {c : Char} (h : nameStartChar c = true) :
    (65 ≤ c.toNat ∧ c.toNat ≤ 90) ∨ (97 ≤ c.toNat ∧ c.toNat ≤ 122) ∨
    c.toNat = 95 ∨ c.toNat = 58 := by
  simp only [nameStartChar, Bool.or_eq_true, Bool.and_eq_true, decide_eq_true_eq] at h
  rcases h with ((h | h) | h) | h
  · omega
  · omega
  · subst h; decide
  · subst h; decide

/-- The numeric ranges behind `nameChar`. -/
theorem nameChar_ranges {c : Char} (h : nameChar c = true) :
    (65 ≤ c.toNat ∧ c.toNat ≤ 90) ∨ (97 ≤ c.toNat ∧ c.toNat ≤ 122) ∨
    c.toNat = 95 ∨ c.toNat = 58 ∨ (48 ≤ c.toNat ∧ c.toNat ≤ 57) ∨
    c.toNat = 45 ∨ c.toNat = 46 := by
  simp only [nameChar, Bool.or_eq_true, Bool.and_eq_true, decide_eq_true_eq] at h
  rcases h with ((hs | h) | h) | h
  · rcases nameStartChar_ranges hs with h | h | h | h <;> omega
  · omega
  · subst h; decide
  · subst h; decide

theorem nameChar_toNat_lt (c : Char) (h : nameChar c = true) : c.toNat < 128 := by
  rcases nameChar_ranges h with h | h | h | h | h | h | h <;> omega

theorem nameChar_ne_nl (c : Char) (h : nameChar c = true) : c ≠ '\n' := by
  apply char_ne_of_toNat_ne
  have : ('\n').toNat = 10 := rfl
  rcases nameChar_ranges h with h | h | h | h | h | h | h <;> omega

theorem nameStartChar_ne_q (c : Char) (h : nameStartChar c = true) :
    c ≠ '?' ∧ c ≠ '!' ∧ c ≠ '/' ∧ c ≠ '>' := by
  have h1 : ('?').toNat = 63 := rfl
  have h2 : ('!').toNat = 33 := rfl
  have h3 : ('/').toNat = 47 := rfl
  have h4 : ('>').toNat = 62 := rfl
  rcases nameStartChar_ranges h with h | h | h | h <;>
    exact ⟨char_ne_of_toNat_ne (by omega), char_ne_of_toNat_ne (by omega),
           char_ne_of_toNat_ne (by omega), char_ne_of_toNat_ne (by omega)⟩

theorem nameStartChar_not_ws (c : Char) (h : nameStartChar c = true) :
    xmlIsSpace c = false := by
  have hr := nameStartChar_ranges h
  simp only [xmlIsSpace, Bool.or_eq_false_iff, decide_eq_false_iff_not]
  have e1 : (' ').toNat = 32 := rfl
  have e2 : ('\t').toNat = 9 := rfl
  have e3 : ('\n').toNat = 10 := rfl
  have e4 : ('\r').toNat = 13 := rfl
  refine ⟨⟨⟨char_ne_of_toNat_ne ?_, char_ne_of_toNat_ne ?_⟩, char_ne_of_toNat_ne ?_⟩,
          char_ne_of_toNat_ne ?_⟩ <;> rcases hr with h | h | h | h <;> omega

theorem nameStartChar_is_nameChar (c : Char) (h : nameStartChar c = true) :
    nameChar c = true := by
  simp [nameChar, h]

/-- A valid name is a nonempty list of name characters. -/
theorem validXmlName_all (t : PyStr) (h : validXmlName t = true) :
    ∀ c ∈ t, nameChar c = true := by
  cases t with
  | nil => simp [validXmlName] at h
  | cons c rest =>
    simp only [validXmlName, Bool.and_eq_true, List.all_eq_true] at h
    intro x hx
    rcases List.mem_cons.mp hx with hx | hx
    · exact hx ▸ nameStartChar_is_nameChar c h.1
    · exact h.2 x hx

theorem takeWhile_append_all {p : Char → Bool} (xs ys : PyStr)
    (hall : ∀ c ∈ xs, p c = true) (hy : ∀ c, ys.head? = some c → p c = false) :
    (xs ++ ys).takeWhile p = xs ++ ys.takeWhile p ∧
    (xs ++ ys).dropWhile p = ys.dropWhile p ∧
    ys.takeWhile p = [] ∧ ys.dropWhile p = ys := by
  have hys : ys.takeWhile p = [] ∧ ys.dropWhile p = ys := by
    cases ys with
    | nil => simp
    | cons y ys' =>
      have := hy y rfl
      simp [List.takeWhile, List.dropWhile, this]
  refine ⟨?_, ?_, hys.1, hys.2⟩
  · induction xs with
    | nil => simp
    | cons x xs ih =>
      have hx := hall x (List.mem_cons_self _ _)
      simp only [List.cons_append, List.takeWhile, hx]
      exact congrArg (List.cons x) (ih (fun c hc => hall c (List.mem_cons_of_mem _ hc)))
  · induction xs with
    | nil => simp
    | cons x xs ih =>
      have hx := hall x (List.mem_cons_self _ _)
      simp only [List.cons_append, List.dropWhile, hx]
      exact ih (fun c hc => hall c (List.mem_cons_of_mem _ hc))

/-- `parseName` consumes exactly a valid name followed by a non-name
character. -/
theorem parseName_append (t r : PyStr) (ht : validXmlName t = true)
    (hr : ∀ c, r.head? = some c → nameChar c = false) :
    parseName (t ++ r) = .ok (t, r) := by
  cases t with
  | nil => simp [validXmlName] at ht
  | cons c rest =>
    simp only [validXmlName, Bool.and_eq_true, List.all_eq_true] at ht
    obtain ⟨htw, hdw, hty, hdy⟩ := takeWhile_append_all rest r ht.2 hr
    simp only [List.cons_append, parseName, ht.1, if_true]
    rw [htw, hdw, hty, hdy, List.append_nil]

theorem pav_amp (f : Nat) (rest : PyStr) :
    parseAttrValue '"' (f + 1) ('&' :: 'a' :: 'm' :: 'p' :: ';' :: rest) =
      match parseAttrValue '"' f rest with
      | .ok (v, r3) => .ok ('&' :: v, r3)
      | .error e => .error e := rfl

theorem pav_lt (f : Nat) (rest : PyStr) :
    parseAttrValue '"' (f + 1) ('&' :: 'l' :: 't' :: ';' :: rest) =
      match parseAttrValue '"' f rest with
      | .ok (v, r3) => .ok ('<' :: v, r3)
      | .error e => .error e := rfl

theorem pav_gt (f : Nat) (rest : PyStr) :
    parseAttrValue '"' (f + 1) ('&' :: 'g' :: 't' :: ';' :: rest) =
      match parseAttrValue '"' f rest with
      | .ok (v, r3) => .ok ('>' :: v, r3)
      | .error e => .error e := rfl

theorem pav_quot (f : Nat) (rest : PyStr) :
    parseAttrValue '"' (f + 1) ('&' :: 'q' :: 'u' :: 'o' :: 't' :: ';' :: rest) =
      match parseAttrValue '"' f rest with
      | .ok (v, r3) => .ok ('"' :: v, r3)
      | .error e => .error e := rfl

theorem pav_cr (f : Nat) (rest : PyStr) :
    parseAttrValue '"' (f + 1) ('&' :: '#' :: '1' :: '3' :: ';' :: rest) =
      match parseAttrValue '"' f rest with
      | .ok (v, r3) => .ok ('\r' :: v, r3)
      | .error e => .error e := rfl

theorem pav_lf (f : Nat) (rest : PyStr) :
    parseAttrValue '"' (f + 1) ('&' :: '#' :: '1' :: '0' :: ';' :: rest) =
      match parseAttrValue '"' f rest with
      | .ok (v, r3) => .ok ('\n' :: v, r3)
      | .error e => .error e := rfl

theorem pav_tab (f : Nat) (rest : PyStr) :
    parseAttrValue '"' (f + 1) ('&' :: '#' :: '0' :: '9' :: ';' :: rest) =
      match parseAttrValue '"' f rest with
      | .ok (v, r3) => .ok ('\t' :: v, r3)
      | .error e => .error e := rfl

theorem pav_raw (f : Nat) (c : Char) (rest : PyStr) (h1 : ¬c = '"') (h2 : ¬c = '<')
    (h3 : ¬c = '&') (h4 : ¬c = '\r') (h5 : ¬c = '\n') (h6 : ¬c = '\t')
    (h7 : ¬c.toNat < 32) :
    parseAttrValue '"' (f + 1) (c :: rest) =
      match parseAttrValue '"' f rest with
      | .ok (v, r3) => .ok (c :: v, r3)
      | .error e => .error e := by
  simp [parseAttrValue, h1, h2, h3, h4, h5, h6, h7]

/-- The parser recovers exactly the attribute value the serializer
escaped. -/
theorem parseAttrValue_escAttrib (v : PyStr) : ∀ (f : Nat) (r : PyStr),
    attrSafe v = true → (escAttrib v).length < f →
    parseAttrValue '"' f (escAttrib v ++ '"' :: r) = .ok (v, r) := by
  induction v with
  | nil =>
    intro f r _ hf
    obtain ⟨f', rfl⟩ : ∃ f', f = f' + 1 := ⟨f - 1, by omega⟩
    rfl
  | cons c v ih =>
    intro f r hs hf
    have hs' : attrSafeChar c = true ∧ attrSafe v = true := by
      simpa [attrSafe] using hs
    obtain ⟨f', rfl⟩ : ∃ f', f = f' + 1 := ⟨f - 1, by omega⟩
    by_cases h1 : c = '&'
    · subst h1
      have hlen : (escAttrib v).length < f' := by
        simp [escAttrib] at hf
        omega
      rw [show escAttrib ('&' :: v) ++ '"' :: r =
            '&' :: 'a' :: 'm' :: 'p' :: ';' :: (escAttrib v ++ '"' :: r) from rfl]
      rw [pav_amp, ih f' r hs'.2 hlen]
    · by_cases h2 : c = '<'
      · subst h2
        have hlen : (escAttrib v).length < f' := by
          simp [escAttrib] at hf
          omega
        rw [show escAttrib ('<' :: v) ++ '"' :: r =
              '&' :: 'l' :: 't' :: ';' :: (escAttrib v ++ '"' :: r) from rfl]
        rw [pav_lt, ih f' r hs'.2 hlen]
      · by_cases h3 : c = '>'
        · subst h3
          have hlen : (escAttrib v).length < f' := by
            simp [escAttrib] at hf
            omega
          rw [show escAttrib ('>' :: v) ++ '"' :: r =
                '&' :: 'g' :: 't' :: ';' :: (escAttrib v ++ '"' :: r) from rfl]
          rw [pav_gt, ih f' r hs'.2 hlen]
        · by_cases h4 : c = '"'
          · subst h4
            have hlen : (escAttrib v).length < f' := by
              simp [escAttrib] at hf
              omega
            rw [show escAttrib ('"' :: v) ++ '"' :: r =
                  '&' :: 'q' :: 'u' :: 'o' :: 't' :: ';' :: (escAttrib v ++ '"' :: r) from rfl]
            rw [pav_quot, ih f' r hs'.2 hlen]
          · by_cases h5 : c = '\r'
            · subst h5
              have hlen : (escAttrib v).length < f' := by
                simp [escAttrib] at hf
                omega
              rw [show escAttrib ('\r' :: v) ++ '"' :: r =
                    '&' :: '#' :: '1' :: '3' :: ';' :: (escAttrib v ++ '"' :: r) from rfl]
              rw [pav_cr, ih f' r hs'.2 hlen]
            · by_cases h6 : c = '\n'
              · subst h6
                have hlen : (escAttrib v).length < f' := by
                  simp [escAttrib] at hf
                  omega
                rw [show escAttrib ('\n' :: v) ++ '"' :: r =
                      '&' :: '#' :: '1' :: '0' :: ';' :: (escAttrib v ++ '"' :: r) from rfl]
                rw [pav_lf, ih f' r hs'.2 hlen]
              · by_cases h7 : c = '\t'
                · subst h7
                  have hlen : (escAttrib v).length < f' := by
                    simp [escAttrib] at hf
                    omega
                  rw [show escAttrib ('\t' :: v) ++ '"' :: r =
                        '&' :: '#' :: '0' :: '9' :: ';' :: (escAttrib v ++ '"' :: r) from rfl]
                  rw [pav_tab, ih f' r hs'.2 hlen]
                · -- raw character
                  have hesc : escAttrib (c :: v) = c :: escAttrib v := by
                    simp [escAttrib, h1, h2, h3, h4, h5, h6, h7]
                  have hlen : (escAttrib v).length < f' := by
                    rw [hesc] at hf
                    simp at hf
                    omega
                  have hge : ¬c.toNat < 32 := by
                    simp only [attrSafeChar, Bool.and_eq_true, Bool.or_eq_true,
                      decide_eq_true_eq] at hs'
                    rcases hs'.1.2 with ((ht | ht) | ht) | ht
                    · exact absurd ht h7
                    · exact absurd ht h6
                    · exact absurd ht h5
                    · omega
                  rw [hesc, List.cons_append, pav_raw f' c _ h4 h2 h1 h5 h6 h7 hge,
                    ih f' r hs'.2 hlen]

theorem xmlIsSpace_space : xmlIsSpace ' ' = true := rfl

theorem xmlIsSpace_eq_sign : xmlIsSpace '=' = false := rfl

theorem xmlIsSpace_slash : xmlIsSpace '/' = false := rfl

theorem xmlIsSpace_dquot : xmlIsSpace '"' = false := rfl

theorem nameChar_eq_sign : nameChar '=' = false := rfl

theorem nodup_append_mid_not_mem {α : Type} (xs ys : List α) (k : α)
    (h : (xs ++ k :: ys).Nodup) : k ∉ xs := by
  induction xs with
  | nil => simp
  | cons x xs ih =>
    rcases List.nodup_cons.mp h with ⟨hx, hrest⟩
    intro hk
    rcases List.mem_cons.mp hk with hk | hk
    · exact hx (hk ▸ (List.mem_append.mpr (Or.inr (List.mem_cons_self _ _))))
    · exact ih hrest hk

/-- One attribute step of `parseAttrs` on serializer output. -/
theorem parseAttrs_step (f : Nat) (k v : PyStr) (acc : List (PyStr × PyStr))
    (REST : PyStr) (hk : validXmlName k = true) (hv : attrSafe v = true)
    (hnd : dictContains acc k = false) :
    parseAttrs (f + 1) (' ' :: (k ++ '=' :: '"' :: (escAttrib v ++ '"' :: REST))) acc =
      parseAttrs f REST (acc ++ [(k, v)]) := by
  obtain ⟨kc, krest, rfl⟩ : ∃ kc krest, k = kc :: krest := by
    cases k with
    | nil => simp [validXmlName] at hk
    | cons a b => exact ⟨a, b, rfl⟩
  have hkc : nameStartChar kc = true := by
    simp only [validXmlName, Bool.and_eq_true] at hk
    exact hk.1
  have hkws : xmlIsSpace kc = false := nameStartChar_not_ws _ hkc
  obtain ⟨hne1, hne2, hne3, hne4⟩ := nameStartChar_ne_q kc hkc
  have hname : parseName (kc :: (krest ++ '=' :: '"' :: (escAttrib v ++ '"' :: REST))) =
      .ok (kc :: krest, '=' :: '"' :: (escAttrib v ++ '"' :: REST)) := by
    have := parseName_append (kc :: krest) ('=' :: '"' :: (escAttrib v ++ '"' :: REST)) hk
      (by intro c hc; injection hc with hc; subst hc; decide)
    simpa using this
  have hpav : parseAttrValue '"' ((escAttrib v ++ '"' :: REST).length + 1)
      (escAttrib v ++ '"' :: REST) = .ok (v, REST) := by
    apply parseAttrValue_escAttrib v _ _ hv
    simp
    omega
  have hpav' : parseAttrValue '"' ((escAttrib v).length + (REST.length + 1) + 1)
      (escAttrib v ++ '"' :: REST) = .ok (v, REST) := by
    simpa using hpav
  simp only [parseAttrs, List.dropWhile, xmlIsSpace_space, if_true, List.cons_append,
    List.append_eq, hkws, Bool.false_eq_true, if_false, hne3, hne4, hname,
    nameChar_eq_sign, xmlIsSpace_eq_sign, xmlIsSpace_dquot, List.length_append,
    List.length_cons, hpav', hnd]
  simp

/-- `parseAttrs` consumes a whole serialized attribute list up to the
closing `/>` of a short-form start tag. -/
theorem parseAttrs_serAttrs (ps : List (PyStr × PyStr)) :
    ∀ (acc : List (PyStr × PyStr)) (f : Nat) (r : PyStr),
    (∀ kv ∈ ps, validXmlName kv.1 = true ∧ attrSafe kv.2 = true) →
    ((acc ++ ps).map Prod.fst).Nodup →
    ps.length < f →
    parseAttrs f (serAttrsList ps ++ ' ' :: '/' :: '>' :: r) acc = .ok (acc ++ ps, true, r) := by
  induction ps with
  | nil =>
    intro acc f r _ _ hlen
    obtain ⟨f', rfl⟩ : ∃ f', f = f' + 1 := ⟨f - 1, by omega⟩
    simp [serAttrsList, parseAttrs, List.dropWhile, xmlIsSpace_space, xmlIsSpace_slash]
  | cons kv tl ih =>
    obtain ⟨k, v⟩ := kv
    intro acc f r hps hnd hlen
    obtain ⟨f', rfl⟩ : ∃ f', f = f' + 1 := ⟨f - 1, by omega⟩
    have hk := (hps (k, v) (List.mem_cons_self _ _)).1
    have hv := (hps (k, v) (List.mem_cons_self _ _)).2
    have hknotin : k ∉ acc.map Prod.fst := by
      apply nodup_append_mid_not_mem (acc.map Prod.fst) (tl.map Prod.fst) k
      simpa using hnd
    have hdc : dictContains acc k = false := by
      simp [dictContains, (dictLookup_eq_none_iff acc k).mpr hknotin]
    have hshape : serAttrsList ((k, v) :: tl) ++ ' ' :: '/' :: '>' :: r =
        ' ' :: (k ++ '=' :: '"' ::
          (escAttrib v ++ '"' :: (serAttrsList tl ++ ' ' :: '/' :: '>' :: r))) := by
      simp [serAttrsList, serAttr, List.append_assoc]
    rw [hshape, parseAttrs_step f' k v acc _ hk hv hdc]
    have := ih (acc ++ [(k, v)]) f' r
      (fun kv hkv => hps kv (List.mem_cons_of_mem _ hkv))
      (by simpa [List.append_assoc] using hnd)
      (by simpa using Nat.lt_of_succ_lt_succ hlen)
    simpa [List.append_assoc] using this

theorem serAttrsList_length_ge (ps : List (PyStr × PyStr)) :
    ps.length ≤ (serAttrsList ps).length := by
  induction ps with
  | nil => simp [serAttrsList]
  | cons kv tl ih =>
    simp only [serAttrsList, serAttr, List.length_append, List.length_cons]
    omega

/-- The serialized attribute list followed by a space always starts
with a space. -/
theorem serAttrsList_head (ps : List (PyStr × PyStr)) (X : PyStr) :
    ∃ TAIL, serAttrsList ps ++ ' ' :: X = ' ' :: TAIL := by
  cases ps with
  | nil => exact ⟨X, rfl⟩
  | cons kv tl =>
    exact ⟨(kv.1 ++ '=' :: '"' :: (escAttrib kv.2 ++ ['"'])) ++ (serAttrsList tl ++ ' ' :: X),
      by simp [serAttrsList, serAttr]⟩

theorem xmlIsSpace_gt : xmlIsSpace '>' = false := rfl

theorem nameChar_space : nameChar ' ' = false := rfl

theorem nameChar_gt : nameChar '>' = false := rfl

theorem tokenizeAux_header (f : Nat) (rest : PyStr) :
    tokenizeAux (f + 1) (XML_HEADER ++ rest) = tokenizeAux f rest := rfl

theorem parseAttrs_gt (n : Nat) (acc : List (PyStr × PyStr)) (rest : PyStr) :
    parseAttrs (n + 1) ('>' :: rest) acc = .ok (acc, false, rest) := by
  simp [parseAttrs, List.dropWhile, xmlIsSpace_gt]

/-- Tokenizing a serialized leaf element (short-form start tag). -/
theorem tokenizeAux_leaf (f : Nat) (c : PyStr) (ps : List (PyStr × PyStr)) (rest : PyStr)
    (hc : validXmlName c = true)
    (hps : ∀ kv ∈ ps, validXmlName kv.1 = true ∧ attrSafe kv.2 = true)
    (hnd : (ps.map Prod.fst).Nodup) :
    tokenizeAux (f + 1) ('<' :: (c ++ (serAttrsList ps ++ ' ' :: '/' :: '>' :: rest))) =
      consTok (.startTag c ps true) (tokenizeAux f rest) := by
  obtain ⟨cc, crest, rfl⟩ : ∃ cc crest, c = cc :: crest := by
    cases c with
    | nil => simp [validXmlName] at hc
    | cons a b => exact ⟨a, b, rfl⟩
  have hcc : nameStartChar cc = true := by
    simp only [validXmlName, Bool.and_eq_true] at hc
    exact hc.1
  obtain ⟨hne1, hne2, hne3, _⟩ := nameStartChar_ne_q cc hcc
  obtain ⟨TAIL, hTAIL⟩ := serAttrsList_head ps ('/' :: '>' :: rest)
  have hname : parseName (cc :: (crest ++ (serAttrsList ps ++ ' ' :: '/' :: '>' :: rest))) =
      .ok (cc :: crest, serAttrsList ps ++ ' ' :: '/' :: '>' :: rest) := by
    have := parseName_append (cc :: crest) (serAttrsList ps ++ ' ' :: '/' :: '>' :: rest) hc
      (by intro ch hch; rw [hTAIL] at hch; injection hch with hch; subst hch; decide)
    simpa using this
  have hattrs : parseAttrs ((serAttrsList ps ++ ' ' :: '/' :: '>' :: rest).length + 1)
      (serAttrsList ps ++ ' ' :: '/' :: '>' :: rest) [] = .ok (ps, true, rest) := by
    have hge := serAttrsList_length_ge ps
    have := parseAttrs_serAttrs ps [] ((serAttrsList ps ++ ' ' :: '/' :: '>' :: rest).length + 1)
      rest hps (by simpa using hnd) (by simp [List.length_append]; omega)
    simpa using this
  have hattrs2 : parseAttrs ((serAttrsList ps).length + (rest.length + 1 + 1 + 1) + 1)
      (serAttrsList ps ++ ' ' :: '/' :: '>' :: rest) [] = .ok (ps, true, rest) := by
    simpa using hattrs
  simp only [tokenizeAux, List.cons_append, if_true, hne1, hne2, hne3, if_false, hname,
    List.length_append, List.length_cons, hattrs2]

/-- Tokenizing the long-form start tag of the attributeless root. -/
theorem tokenizeAux_root_open (f : Nat) (t : PyStr) (rest : PyStr)
    (ht : validXmlName t = true) :
    tokenizeAux (f + 1) ('<' :: (t ++ '>' :: rest)) =
      consTok (.startTag t [] false) (tokenizeAux f rest) := by
  obtain ⟨cc, crest, rfl⟩ : ∃ cc crest, t = cc :: crest := by
    cases t with
    | nil => simp [validXmlName] at ht
    | cons a b => exact ⟨a, b, rfl⟩
  have hcc : nameStartChar cc = true := by
    simp only [validXmlName, Bool.and_eq_true] at ht
    exact ht.1
  obtain ⟨hne1, hne2, hne3, _⟩ := nameStartChar_ne_q cc hcc
  have hname : parseName (cc :: (crest ++ '>' :: rest)) =
      .ok (cc :: crest, '>' :: rest) := by
    have := parseName_append (cc :: crest) ('>' :: rest) ht
      (by intro ch hch; injection hch with hch; subst hch; decide)
    simpa using this
  have hattrs : parseAttrs (rest.length + 1 + 1) ('>' :: rest) [] =
      .ok ([], false, rest) := parseAttrs_gt (rest.length + 1) [] rest
  simp only [tokenizeAux, List.cons_append, hname, List.length_cons, hattrs]
  simp [hne1, hne2, hne3]

/-- Tokenizing an end tag. -/
theorem tokenizeAux_end (f : Nat) (t : PyStr) (rest : PyStr)
    (ht : validXmlName t = true) :
    tokenizeAux (f + 1) ('<' :: '/' :: (t ++ '>' :: rest)) =
      consTok (.endTag t) (tokenizeAux f rest) := by
  have hname : parseName (t ++ '>' :: rest) = .ok (t, '>' :: rest) :=
    parseName_append t ('>' :: rest) ht
      (by intro ch hch; injection hch with hch; subst hch; decide)
  simp [tokenizeAux, hname, List.dropWhile, xmlIsSpace_gt]

theorem spaceSlashGt_data : (" />".data : PyStr) = [' ', '/', '>'] := rfl

/-- A serialized leaf followed by anything, in start-tag shape. -/
theorem serXE_leaf_shape (cp : PyStr × List (PyStr × PyStr)) (Y : PyStr) :
    serXE (leafElem cp) ++ Y =
      '<' :: (cp.1 ++ (serAttrsList cp.2 ++ ' ' :: '/' :: '>' :: Y)) := by
  obtain ⟨k, ps⟩ := cp
  show (('<' :: (k ++ serAttrsList ps ++
      (if optEmpty none && XF.isNil .nil then " />".data
       else '>' :: (escCdata ((none : Option PyStr).getD []) ++ serXF .nil ++
         ('<' :: '/' :: (k ++ ['>'])))))) ++ escCdata ((none : Option PyStr).getD [])) ++ Y =
    '<' :: (k ++ (serAttrsList ps ++ ' ' :: '/' :: '>' :: Y))
  simp [optEmpty, XF.isNil, escCdata, spaceSlashGt_data, List.append_assoc]

/-- Tokenizing the serialized forest of leaf children. -/
theorem tokenizeAux_leaves (cmds : List (PyStr × List (PyStr × PyStr))) :
    ∀ (f : Nat) (rest : PyStr),
    (∀ cp ∈ cmds, validXmlName cp.1 = true ∧ (cp.2.map Prod.fst).Nodup ∧
      ∀ kv ∈ cp.2, validXmlName kv.1 = true ∧ attrSafe kv.2 = true) →
    tokenizeAux (f + cmds.length) (serXF (XF.ofList (cmds.map leafElem)) ++ rest) =
      match tokenizeAux f rest with
      | .ok ts => .ok (cmds.map (fun cp => XmlTok.startTag cp.1 cp.2 true) ++ ts)
      | .error e => .error e := by
  induction cmds with
  | nil =>
    intro f rest _
    simp only [List.map_nil, XF.ofList, serXF, List.nil_append, List.length_nil, Nat.add_zero]
    cases htk : tokenizeAux f rest <;> simp [htk]
  | cons cp tl ih =>
    intro f rest hcmds
    have hcp := hcmds cp (List.mem_cons_self _ _)
    have hshape : serXF (XF.ofList ((cp :: tl).map leafElem)) ++ rest =
        '<' :: (cp.1 ++ (serAttrsList cp.2 ++ ' ' :: '/' :: '>' ::
          (serXF (XF.ofList (tl.map leafElem)) ++ rest))) := by
      rw [show serXF (XF.ofList ((cp :: tl).map leafElem)) =
            serXE (leafElem cp) ++ serXF (XF.ofList (tl.map leafElem)) from rfl,
          List.append_assoc, serXE_leaf_shape]
    rw [show (cp :: tl).length = tl.length + 1 from rfl, ← Nat.add_assoc, hshape,
      tokenizeAux_leaf (f + tl.length) cp.1 cp.2 _ hcp.1 hcp.2.2 hcp.2.1,
      ih f rest (fun x hx => hcmds x (List.mem_cons_of_mem _ hx))]
    cases htk : tokenizeAux f rest <;> simp [consTok]

theorem tokenizeAux_nil (f : Nat) : tokenizeAux (f + 1) [] = .ok [] := rfl

theorem xmlHeaderLength : XML_HEADER.length = 38 := rfl

theorem serXF_leaves_length (cmds : List (PyStr × List (PyStr × PyStr))) :
    cmds.length ≤ (serXF (XF.ofList (cmds.map leafElem))).length := by
  induction cmds with
  | nil => simp [XF.ofList, serXF]
  | cons cp tl ih =>
    have hsh := serXE_leaf_shape cp []
    rw [List.append_nil] at hsh
    show (cp :: tl).length ≤ (serXE (leafElem cp) ++ serXF (XF.ofList (tl.map leafElem))).length
    rw [hsh]
    simp only [List.length_cons, List.length_append]
    omega

/-- The serialized form of a root with at least one child. -/
theorem serXE_root_long (t : PyStr) (cmds : List (PyStr × List (PyStr × PyStr)))
    (hne : cmds ≠ []) :
    serXE (.mk t [] none (XF.ofList (cmds.map leafElem)) none) =
      '<' :: (t ++ '>' :: (serXF (XF.ofList (cmds.map leafElem)) ++
        '<' :: '/' :: (t ++ ['>']))) := by
  obtain ⟨cp, tl, rfl⟩ : ∃ cp tl, cmds = cp :: tl := by
    cases cmds with
    | nil => exact absurd rfl hne
    | cons a b => exact ⟨a, b, rfl⟩
  show ('<' :: (t ++ serAttrsList [] ++ _) ++ _) = _
  simp [serAttrsList, optEmpty, XF.isNil, XF.ofList, escCdata, List.append_assoc]

/-- The serialized form of a childless root. -/
theorem serXE_root_short (t : PyStr) :
    serXE (.mk t [] none .nil none) = '<' :: (t ++ ([] ++ ' ' :: '/' :: '>' :: [])) := by
  show ('<' :: (t ++ serAttrsList [] ++ _) ++ _) = _
  simp [serAttrsList, optEmpty, XF.isNil, escCdata, spaceSlashGt_data]

/-- Tokenizing the whole document of a command-less request. -/
theorem tokenize_doc_empty (t : PyStr) (ht : validXmlName t = true) :
    tokenizeAux ((XML_HEADER ++ serXE (.mk t [] none .nil none)).length + 1)
        (XML_HEADER ++ serXE (.mk t [] none .nil none)) =
      .ok [.startTag t [] true] := by
  rw [serXE_root_short]
  rw [show (XML_HEADER ++ '<' :: (t ++ ([] ++ ' ' :: '/' :: '>' :: []))).length + 1 =
        ((XML_HEADER ++ '<' :: (t ++ ([] ++ ' ' :: '/' :: '>' :: []))).length) + 1 from rfl]
  rw [show (XML_HEADER ++ '<' :: (t ++ ([] ++ ' ' :: '/' :: '>' :: []))).length =
        (t.length + 41) + 1 from by
      simp [List.length_append, xmlHeaderLength]
      omega]
  rw [tokenizeAux_header]
  rw [show t.length + 42 = (t.length + 41) + 1 from rfl]
  rw [show ([] : PyStr) ++ ' ' :: '/' :: '>' :: [] =
        serAttrsList [] ++ ' ' :: '/' :: '>' :: ([] : PyStr) from rfl]
  rw [tokenizeAux_leaf (t.length + 41) t [] [] ht (by simp) (by simp)]
  rw [show t.length + 41 = (t.length + 40) + 1 from rfl, tokenizeAux_nil]
  rfl

/-- Tokenizing the whole document of a request with commands. -/
theorem tokenize_doc_cons (t : PyStr) (cmds : List (PyStr × List (PyStr × PyStr)))
    (hne : cmds ≠ []) (ht : validXmlName t = true)
    (hcmds : ∀ cp ∈ cmds, validXmlName cp.1 = true ∧ (cp.2.map Prod.fst).Nodup ∧
      ∀ kv ∈ cp.2, validXmlName kv.1 = true ∧ attrSafe kv.2 = true) :
    tokenizeAux
        ((XML_HEADER ++ serXE (.mk t [] none (XF.ofList (cmds.map leafElem)) none)).length + 1)
        (XML_HEADER ++ serXE (.mk t [] none (XF.ofList (cmds.map leafElem)) none)) =
      .ok (.startTag t [] false ::
        (cmds.map (fun cp => XmlTok.startTag cp.1 cp.2 true) ++ [.endTag t])) := by
  have hE := serXF_leaves_length cmds
  rw [serXE_root_long t cmds hne]
  rw [show (XML_HEADER ++ '<' :: (t ++ '>' :: (serXF (XF.ofList (cmds.map leafElem)) ++
        '<' :: '/' :: (t ++ ['>'])))).length + 1 =
      (((serXF (XF.ofList (cmds.map leafElem))).length + 2 * t.length + 43) + 1) from by
    simp [List.length_append, xmlHeaderLength]
    omega]
  rw [tokenizeAux_header]
  rw [show (serXF (XF.ofList (cmds.map leafElem))).length + 2 * t.length + 43 =
        ((serXF (XF.ofList (cmds.map leafElem))).length + 2 * t.length + 42) + 1 from rfl]
  rw [tokenizeAux_root_open _ t _ ht]
  rw [show (serXF (XF.ofList (cmds.map leafElem))).length + 2 * t.length + 42 =
        ((serXF (XF.ofList (cmds.map leafElem))).length + 2 * t.length + 42 - cmds.length) +
          cmds.length from by omega]
  rw [tokenizeAux_leaves cmds _ _ hcmds]
  rw [show (serXF (XF.ofList (cmds.map leafElem))).length + 2 * t.length + 42 - cmds.length =
        ((serXF (XF.ofList (cmds.map leafElem))).length + 2 * t.length + 41 - cmds.length) + 1
      from by omega]
  rw [show ('<' :: '/' :: (t ++ ['>']) : PyStr) = '<' :: '/' :: (t ++ '>' :: []) from rfl]
  rw [tokenizeAux_end _ t [] ht]
  rw [show (serXF (XF.ofList (cmds.map leafElem))).length + 2 * t.length + 41 - cmds.length =
        ((serXF (XF.ofList (cmds.map leafElem))).length + 2 * t.length + 40 - cmds.length) + 1
      from by omega]
  rw [tokenizeAux_nil]
  rfl

/-- Feeding the builder the start tokens of the leaf children appends
exactly the leaf elements to the open root's child list. -/
theorem buildAux_leaves (cmds : List (PyStr × List (PyStr × PyStr))) :
    ∀ (o : OpenElem) (rest : List XmlTok),
    buildAux (cmds.map (fun cp => XmlTok.startTag cp.1 cp.2 true) ++ rest) [o] none =
      buildAux rest [{ o with children := o.children ++ cmds.map leafElem }] none := by
  induction cmds with
  | nil => intro o rest; simp
  | cons cp tl ih =>
    intro o rest
    show buildAux (XmlTok.startTag cp.1 cp.2 true ::
      (tl.map (fun cp => XmlTok.startTag cp.1 cp.2 true) ++ rest)) [o] none = _
    rw [show buildAux (XmlTok.startTag cp.1 cp.2 true ::
        (tl.map (fun cp => XmlTok.startTag cp.1 cp.2 true) ++ rest)) [o] none =
      buildAux (tl.map (fun cp => XmlTok.startTag cp.1 cp.2 true) ++ rest)
        [{ o with children := o.children ++ [leafElem cp] }] none from rfl]
    rw [ih { o with children := o.children ++ [leafElem cp] } rest]
    simp [List.append_assoc]

theorem buildAux_finish (t : PyStr) (attrs : List (PyStr × PyStr)) (text : Option PyStr)
    (children : List XE) :
    buildAux [.endTag t] [⟨t, attrs, text, children⟩] none =
      .ok (.mk t attrs text (XF.ofList children) none) := by
  simp [buildAux, closeOpen]

theorem escAttrib_chars (v : PyStr) (hv : attrSafe v = true) :
    ∀ c ∈ escAttrib v, c.toNat < 128 ∧ c ≠ '\n' := by
  induction v with
  | nil => simp [escAttrib]
  | cons c v ih =>
    have hs' : attrSafeChar c = true ∧ attrSafe v = true := by
      simpa [attrSafe] using hv
    intro x hx
    simp only [escAttrib, List.mem_append] at hx
    rcases hx with hx | hx
    · split_ifs at hx with h1 h2 h3 h4 h5 h6 h7
      · fin_cases hx <;> exact ⟨by decide, by decide⟩
      · fin_cases hx <;> exact ⟨by decide, by decide⟩
      · fin_cases hx <;> exact ⟨by decide, by decide⟩
      · fin_cases hx <;> exact ⟨by decide, by decide⟩
      · fin_cases hx <;> exact ⟨by decide, by decide⟩
      · fin_cases hx <;> exact ⟨by decide, by decide⟩
      · fin_cases hx <;> exact ⟨by decide, by decide⟩
      · rw [List.mem_singleton] at hx
        subst hx
        simp only [attrSafeChar, Bool.and_eq_true, decide_eq_true_eq] at hs'
        exact ⟨hs'.1.1, h6⟩
    · exact ih hs'.2 x hx

theorem name_chars (t : PyStr) (h : validXmlName t = true) :
    ∀ c ∈ t, c.toNat < 128 ∧ c ≠ '\n' := fun c hc =>
  ⟨nameChar_toNat_lt c (validXmlName_all t h c hc),
   nameChar_ne_nl c (validXmlName_all t h c hc)⟩

theorem serAttrsList_chars (ps : List (PyStr × PyStr))
    (h : ∀ kv ∈ ps, validXmlName kv.1 = true ∧ attrSafe kv.2 = true) :
    ∀ c ∈ serAttrsList ps, c.toNat < 128 ∧ c ≠ '\n' := by
  induction ps with
  | nil => simp [serAttrsList]
  | cons kv tl ih =>
    intro c hc
    have hkv := h kv (List.mem_cons_self _ _)
    simp only [serAttrsList, serAttr, List.mem_append, List.mem_cons] at hc
    rcases hc with (hc | hc) | hc
    · subst hc; exact ⟨by decide, by decide⟩
    · rcases hc with hc | hc | hc | hc | hc | hc
      · exact name_chars kv.1 hkv.1 c hc
      · subst hc; exact ⟨by decide, by decide⟩
      · subst hc; exact ⟨by decide, by decide⟩
      · exact escAttrib_chars kv.2 hkv.2 c hc
      · subst hc; exact ⟨by decide, by decide⟩
      · simp at hc
    · exact ih (fun x hx => h x (List.mem_cons_of_mem _ hx)) c hc

theorem serLeaves_chars (cmds : List (PyStr × List (PyStr × PyStr)))
    (h : ∀ cp ∈ cmds, validXmlName cp.1 = true ∧ (cp.2.map Prod.fst).Nodup ∧
      ∀ kv ∈ cp.2, validXmlName kv.1 = true ∧ attrSafe kv.2 = true) :
    ∀ c ∈ serXF (XF.ofList (cmds.map leafElem)), c.toNat < 128 ∧ c ≠ '\n' := by
  induction cmds with
  | nil => simp [XF.ofList, serXF]
  | cons cp tl ih =>
    intro c hc
    have hcp := h cp (List.mem_cons_self _ _)
    have hsh := serXE_leaf_shape cp []
    rw [List.append_nil] at hsh
    have : serXF (XF.ofList ((cp :: tl).map leafElem)) =
        serXE (leafElem cp) ++ serXF (XF.ofList (tl.map leafElem)) := rfl
    rw [this, hsh] at hc
    rcases List.mem_append.mp hc with hc | hc
    · rcases List.mem_cons.mp hc with hc | hc
      · subst hc; exact ⟨by decide, by decide⟩
      · rcases List.mem_append.mp hc with hc | hc
        · exact name_chars cp.1 hcp.1 c hc
        · rcases List.mem_append.mp hc with hc | hc
          · exact serAttrsList_chars cp.2 hcp.2.2 c hc
          · rcases List.mem_cons.mp hc with hc | hc
            · subst hc; exact ⟨by decide, by decide⟩
            · rcases List.mem_cons.mp hc with hc | hc
              · subst hc; exact ⟨by decide, by decide⟩
              · rcases List.mem_cons.mp hc with hc | hc
                · subst hc; exact ⟨by decide, by decide⟩
                · simp at hc
    · exact ih (fun x hx => h x (List.mem_cons_of_mem _ hx)) c hc

theorem asciiEncode_eq_self (s : PyStr) (h : ∀ c ∈ s, c.toNat < 128) :
    asciiEncode s = s := by
  induction s with
  | nil => rfl
  | cons c rest ih =>
    have hc := h c (List.mem_cons_self _ _)
    simp only [asciiEncode, hc, if_true]
    exact congrArg (List.cons c) (ih (fun x hx => h x (List.mem_cons_of_mem _ hx)))

theorem pySplitNl_no_nl (s : PyStr) (h : ∀ c ∈ s, c ≠ '\n') : pySplitNl s = [s] := by
  induction s with
  | nil => rfl
  | cons c rest ih =>
    have hc := h c (List.mem_cons_self _ _)
    simp only [pySplitNl, hc, if_false]
    rw [ih (fun x hx => h x (List.mem_cons_of_mem _ hx))]

theorem pyIsSpace_gtc : pyIsSpace '>' = false := rfl

/-- `stripJoin` is the identity on a one-line string that starts with
`<` and ends with `>`. -/
theorem stripJoin_eq_self (A : PyStr)
    (h : ∀ c ∈ '<' :: (A ++ ['>']), c ≠ '\n') :
    stripJoin ('<' :: (A ++ ['>'])) = '<' :: (A ++ ['>']) := by
  unfold stripJoin
  rw [pySplitNl_no_nl _ h]
  show pyStrip ('<' :: (A ++ ['>'])) ++ [] = _
  rw [List.append_nil]
  unfold pyStrip
  rw [show List.dropWhile pyIsSpace ('<' :: (A ++ ['>'])) = '<' :: (A ++ ['>']) from rfl]
  rw [show ('<' :: (A ++ ['>'])).reverse = '>' :: (A.reverse ++ ['<']) from by simp]
  rw [show List.dropWhile pyIsSpace ('>' :: (A.reverse ++ ['<'])) =
        '>' :: (A.reverse ++ ['<']) from rfl]
  rw [show ('>' :: (A.reverse ++ ['<'])).reverse = '<' :: (A ++ ['>']) from by simp]

theorem xmlHeader_split :
    XML_HEADER = '<' :: ("?xml version=\"1.0\" encoding=\"utf-8\"?>".data : PyStr) := rfl

theorem xmlHeaderTail_no_nl :
    ∀ c ∈ ("?xml version=\"1.0\" encoding=\"utf-8\"?>".data : PyStr), c ≠ '\n' := by decide

theorem xmlHeader_ascii : ∀ c ∈ XML_HEADER, c.toNat < 128 := by decide

/-- C8, amended: for a message type and command names that are XML
names, and parameter mappings (`nodup` keys, as Python dicts
guarantee) whose keys are XML names and whose values are
XML-representable ASCII text, decoding the bytes produced by
`format_request` yields exactly the root named by the message type
with one child per command, in input order, each child carrying
exactly its command's parameter pairs (here recovered in identical
order, which in particular gives the claim's set equality regardless
of attribute order). -/
theorem c8_amended (t : PyStr) (cmds : List (PyStr × List (PyStr × PyStr)))
    (ht : validXmlName t = true)
    (hcmds : ∀ cp ∈ cmds, validXmlName cp.1 = true ∧ (cp.2.map Prod.fst).Nodup ∧
      ∀ kv ∈ cp.2, validXmlName kv.1 = true ∧ attrSafe kv.2 = true) :
    parse_response (format_request t cmds) =
      .ok (.mk t [] none (XF.ofList (cmds.map leafElem)) none) := by
  by_cases hne : cmds = []
  · subst hne
    have hser := serXE_root_short t
    have hchars : ∀ c ∈ serXE (XE.mk t [] none .nil none), c.toNat < 128 ∧ c ≠ '\n' := by
      rw [hser]
      intro c hc
      rcases List.mem_cons.mp hc with hc | hc
      · subst hc; exact ⟨by decide, by decide⟩
      · rcases List.mem_append.mp hc with hc | hc
        · exact name_chars t ht c hc
        · simp only [List.nil_append, List.mem_cons] at hc
          rcases hc with hc | hc | hc | hc
          · subst hc; exact ⟨by decide, by decide⟩
          · subst hc; exact ⟨by decide, by decide⟩
          · subst hc; exact ⟨by decide, by decide⟩
          · simp at hc
    have hfr : format_request t [] = XML_HEADER ++ serXE (XE.mk t [] none .nil none) := by
      unfold format_request
      show XML_HEADER ++ asciiEncode (serXE (XE.mk t [] none XF.nil none)) = _
      rw [asciiEncode_eq_self _ (fun c hc => (hchars c hc).1)]
    have hform : XML_HEADER ++ serXE (XE.mk t [] none .nil none) =
        '<' :: ((("?xml version=\"1.0\" encoding=\"utf-8\"?>".data : PyStr) ++
          '<' :: (t ++ [' ', '/'])) ++ ['>']) := by
      rw [hser, xmlHeader_split]
      simp [List.append_assoc]
    have hsj : stripJoin (XML_HEADER ++ serXE (XE.mk t [] none .nil none)) =
        XML_HEADER ++ serXE (XE.mk t [] none .nil none) := by
      rw [hform]
      apply stripJoin_eq_self
      intro c hc
      rcases List.mem_cons.mp hc with hc | hc
      · subst hc; decide
      · rcases List.mem_append.mp hc with hc | hc
        · rcases List.mem_append.mp hc with hc | hc
          · exact xmlHeaderTail_no_nl c hc
          · rcases List.mem_cons.mp hc with hc | hc
            · subst hc; decide
            · rcases List.mem_append.mp hc with hc | hc
              · exact (name_chars t ht c hc).2
              · fin_cases hc <;> decide
        · rw [List.mem_singleton] at hc; subst hc; decide
    show xmlParse (stripJoin (format_request t [])) = _
    rw [hfr, hsj]
    show (match tokenizeAux ((XML_HEADER ++ serXE (XE.mk t [] none .nil none)).length + 1)
        (XML_HEADER ++ serXE (XE.mk t [] none .nil none)) with
      | Except.error e => Except.error e
      | Except.ok toks => buildAux toks [] none) = _
    rw [tokenize_doc_empty t ht]
    rfl
  · have hser := serXE_root_long t cmds hne
    have hchars : ∀ c ∈ serXE (XE.mk t [] none (XF.ofList (cmds.map leafElem)) none),
        c.toNat < 128 ∧ c ≠ '\n' := by
      rw [hser]
      intro c hc
      rcases List.mem_cons.mp hc with hc | hc
      · subst hc; exact ⟨by decide, by decide⟩
      · rcases List.mem_append.mp hc with hc | hc
        · exact name_chars t ht c hc
        · rcases List.mem_cons.mp hc with hc | hc
          · subst hc; exact ⟨by decide, by decide⟩
          · rcases List.mem_append.mp hc with hc | hc
            · exact serLeaves_chars cmds hcmds c hc
            · rcases List.mem_cons.mp hc with hc | hc
              · subst hc; exact ⟨by decide, by decide⟩
              · rcases List.mem_cons.mp hc with hc | hc
                · subst hc; exact ⟨by decide, by decide⟩
                · rcases List.mem_append.mp hc with hc | hc
                  · exact name_chars t ht c hc
                  · rw [List.mem_singleton] at hc
                    subst hc
                    exact ⟨by decide, by decide⟩
    have hfr : format_request t cmds =
        XML_HEADER ++ serXE (XE.mk t [] none (XF.ofList (cmds.map leafElem)) none) := by
      unfold format_request
      rw [asciiEncode_eq_self _ (fun c hc => (hchars c hc).1)]
    have hform : XML_HEADER ++ serXE (XE.mk t [] none (XF.ofList (cmds.map leafElem)) none) =
        '<' :: ((("?xml version=\"1.0\" encoding=\"utf-8\"?>".data : PyStr) ++
          '<' :: (t ++ '>' :: (serXF (XF.ofList (cmds.map leafElem)) ++
            '<' :: '/' :: t))) ++ ['>']) := by
      rw [hser, xmlHeader_split]
      simp [List.append_assoc]
    have hsj : stripJoin (XML_HEADER ++
        serXE (XE.mk t [] none (XF.ofList (cmds.map leafElem)) none)) =
        XML_HEADER ++ serXE (XE.mk t [] none (XF.ofList (cmds.map leafElem)) none) := by
      rw [hform]
      apply stripJoin_eq_self
      intro c hc
      rcases List.mem_cons.mp hc with hc | hc
      · subst hc; decide
      · rcases List.mem_append.mp hc with hc | hc
        · rcases List.mem_append.mp hc with hc | hc
          · exact xmlHeaderTail_no_nl c hc
          · rcases List.mem_cons.mp hc with hc | hc
            · subst hc; decide
            · rcases List.mem_append.mp hc with hc | hc
              · exact (name_chars t ht c hc).2
              · rcases List.mem_cons.mp hc with hc | hc
                · subst hc; decide
                · rcases List.mem_append.mp hc with hc | hc
                  · exact (serLeaves_chars cmds hcmds c hc).2
                  · rcases List.mem_cons.mp hc with hc | hc
                    · subst hc; decide
                    · rcases List.mem_cons.mp hc with hc | hc
                      · subst hc; decide
                      · exact (name_chars t ht c hc).2
        · rw [List.mem_singleton] at hc; subst hc; decide
    show xmlParse (stripJoin (format_request t cmds)) = _
    rw [hfr, hsj]
    show (match tokenizeAux
        ((XML_HEADER ++ serXE (XE.mk t [] none (XF.ofList (cmds.map leafElem)) none)).length + 1)
        (XML_HEADER ++ serXE (XE.mk t [] none (XF.ofList (cmds.map leafElem)) none)) with
      | Except.error e => Except.error e
      | Except.ok toks => buildAux toks [] none) = _
    rw [tokenize_doc_cons t cmds hne ht hcmds]
    show buildAux ((cmds.map (fun cp => XmlTok.startTag cp.1 cp.2 true)) ++ [.endTag t])
        [⟨t, [], none, []⟩] none = _
    rw [buildAux_leaves cmds ⟨t, [], none, []⟩ [.endTag t]]
    show buildAux [.endTag t] [⟨t, [], none, [] ++ cmds.map leafElem⟩] none = _
    rw [List.nil_append, buildAux_finish]

/-- C8 counterexample: the round trip fails for a message type that is
not an XML name.  `format_request('a b', [])` serializes happily to
`...<a b />`, but decoding that payload is a parse error (`b` is taken
for an attribute name with no value), not the claimed Response Tree
rooted at `a b` — so the claim is false for arbitrary strings. -/
theorem c8_counterexample :
    parse_response (format_request "a b".data []) = .error .badAttrSyntax := by
  decide

/-- C8 witness: the canonical volume command round-trips. -/
theorem c8_witness :
    parse_response (format_request "emotivaControl".data
        [("volume".data, [("value".data, "1".data), ("ack".data, "yes".data)])]) =
      .ok (.mk "emotivaControl".data [] none
        (.cons (.mk "volume".data [("value".data, "1".data), ("ack".data, "yes".data)]
          none .nil none) .nil) none) :=
  c8_amended "emotivaControl".data
    [("volume".data, [("value".data, "1".data), ("ack".data, "yes".data)])]
    (by decide) (by decide)
